import Mathlib

/-!
Verification of the hash-calculator core of the XingheBot repository
(`mcp/calculator/hash_calculator.py`), as a shallow embedding in Lean.

Python strings are modelled as Lean `String`, Python `bytes` as `List Nat`
(each element a byte value `< 256`), machine integers as `Nat` with explicit
masking, exceptions as `Except String`, and the file system (for file-typed
inputs) as an explicit association list from paths to contents.
-/

namespace HashCalc

/-- Whitespace characters stripped by Python `str.strip()` and by pydantic's
`str_strip_whitespace`: exactly the code points on which `str.isspace()` is
true, namely U+0009..U+000D, U+001C..U+0020, U+0085, U+00A0, U+1680,
U+2000..U+200A, U+2028, U+2029, U+202F, U+205F and U+3000. -/
def isPyWhitespace (c : Char) : Bool :=
  (9 ≤ c.toNat && c.toNat ≤ 13) || (28 ≤ c.toNat && c.toNat ≤ 32) ||
  c.toNat == 0x85 || c.toNat == 0xa0 || c.toNat == 0x1680 ||
  (0x2000 ≤ c.toNat && c.toNat ≤ 0x200a) || c.toNat == 0x2028 ||
  c.toNat == 0x2029 || c.toNat == 0x202f || c.toNat == 0x205f ||
  c.toNat == 0x3000

/-- Python `str.strip()` on a character list. -/
def pyStripList (l : List Char) : List Char :=
  ((l.dropWhile isPyWhitespace).reverse.dropWhile isPyWhitespace).reverse

/-- Python `str.strip()`. -/
def pyStrip (s : String) : String :=
  String.mk (pyStripList s.data)

/-- UTF-8 encoding of a single character, as a list of byte values. -/
def utf8Char (c : Char) : List Nat :=
  let n := c.toNat
  if n < 0x80 then [n]
  else if n < 0x800 then [0xc0 + n / 0x40, 0x80 + n % 0x40]
  else if n < 0x10000 then
    [0xe0 + n / 0x1000, 0x80 + (n / 0x40) % 0x40, 0x80 + n % 0x40]
  else
    [0xf0 + n / 0x40000, 0x80 + (n / 0x1000) % 0x40,
     0x80 + (n / 0x40) % 0x40, 0x80 + n % 0x40]

/-- Python `str.encode('utf-8')`: UTF-8 bytes of a string. -/
def utf8Encode (s : String) : List Nat :=
  (s.data.map utf8Char).join

/-- Lowercase hexadecimal digit for a value `< 16`. -/
def hexDigit (n : Nat) : Char :=
  if n < 10 then Char.ofNat (48 + n) else Char.ofNat (87 + n)

/-- Two lowercase hex characters for one byte. -/
def byteToHexChars (b : Nat) : List Char :=
  [hexDigit (b / 16 % 16), hexDigit (b % 16)]

/-- Python `bytes.hex()` / `hashlib` `hexdigest`: lowercase hex of a byte string. -/
def bytesToHex (bs : List Nat) : String :=
  String.mk ((bs.map byteToHexChars).join)

/-- Big-endian lowercase hex digits of `n` (no leading zeros), with fuel. -/
def natHexAux : Nat → Nat → List Char
  | 0, _ => []
  | fuel + 1, n => if n = 0 then [] else natHexAux fuel (n / 16) ++ [hexDigit (n % 16)]

/-- Python format `f"{n:0{width}x}"`: zero-padded lowercase hex of `n`. -/
def hexPad (width : Nat) (n : Nat) : String :=
  let ds := natHexAux 16 n
  String.mk (List.replicate (width - ds.length) '0' ++ ds)

/-! ## CRC-32 (`zlib.crc32`) -/

/-- One bit step of the reflected CRC-32 with polynomial `0xEDB88320`. -/
def crcBit (c : Nat) : Nat :=
  if c &&& 1 = 1 then (c >>> 1) ^^^ 0xEDB88320 else c >>> 1

/-- Fold one byte into the CRC-32 register. -/
def crcByte (crc b : Nat) : Nat :=
  Nat.iterate crcBit 8 (crc ^^^ (b % 256))

/-- Python `zlib.crc32(data)`: CRC-32 checksum of the byte string. -/
def crc32 (data : List Nat) : Nat :=
  (data.foldl crcByte 0xFFFFFFFF) ^^^ 0xFFFFFFFF

/-! ## Word-level utilities shared by the hash algorithm models -/

/-- Split a list into consecutive chunks of `n` elements (fuel-based). -/
def chunksAux (n : Nat) : Nat → List α → List (List α)
  | 0, _ => []
  | _, [] => []
  | fuel + 1, l => l.take n :: chunksAux n fuel (l.drop n)

/-- Split a list into consecutive chunks of `n` elements. -/
def chunksOf (n : Nat) (l : List α) : List (List α) :=
  chunksAux n l.length l

/-- Little-endian 32-bit word from (up to) 4 bytes. -/
def wordLE32 (bs : List Nat) : Nat :=
  bs.getD 0 0 + 0x100 * bs.getD 1 0 + 0x10000 * bs.getD 2 0 + 0x1000000 * bs.getD 3 0

/-- Big-endian 32-bit word from (up to) 4 bytes. -/
def wordBE32 (bs : List Nat) : Nat :=
  bs.getD 3 0 + 0x100 * bs.getD 2 0 + 0x10000 * bs.getD 1 0 + 0x1000000 * bs.getD 0 0

/-- Big-endian 64-bit word from (up to) 8 bytes. -/
def wordBE64 (bs : List Nat) : Nat :=
  (bs.take 8).foldl (fun acc b => acc * 0x100 + b) 0

/-- Little-endian 64-bit word from (up to) 8 bytes. -/
def wordLE64 (bs : List Nat) : Nat :=
  wordBE64 (bs.take 8).reverse

/-- Little-endian 4-byte serialization of a 32-bit word. -/
def u32le (w : Nat) : List Nat :=
  [w % 0x100, w / 0x100 % 0x100, w / 0x10000 % 0x100, w / 0x1000000 % 0x100]

/-- Big-endian 4-byte serialization of a 32-bit word. -/
def u32be (w : Nat) : List Nat :=
  [w / 0x1000000 % 0x100, w / 0x10000 % 0x100, w / 0x100 % 0x100, w % 0x100]

/-- Little-endian 8-byte serialization of a 64-bit word. -/
def u64le (w : Nat) : List Nat :=
  u32le (w % 0x100000000) ++ u32le (w / 0x100000000)

/-- Big-endian 8-byte serialization of a 64-bit word. -/
def u64be (w : Nat) : List Nat :=
  u32be (w / 0x100000000) ++ u32be (w % 0x100000000)

/-- Rotate a `w`-bit word left by `n` bits. -/
def rotl (w x n : Nat) : Nat :=
  ((x <<< n) ||| (x >>> (w - n))) &&& (2 ^ w - 1)

/-- Rotate a `w`-bit word right by `n` bits. -/
def rotr (w x n : Nat) : Nat :=
  ((x >>> n) ||| (x <<< (w - n))) &&& (2 ^ w - 1)

/-- Bitwise complement of a `w`-bit word. -/
def wnot (w x : Nat) : Nat :=
  x ^^^ (2 ^ w - 1)

/-! ## MD5 (`hashlib.md5`) -/

/-- The 64 MD5 sine-derived constants. -/
def md5K : List Nat :=
  [0xd76aa478, 0xe8c7b756, 0x242070db, 0xc1bdceee,
   0xf57c0faf, 0x4787c62a, 0xa8304613, 0xfd469501,
   0x698098d8, 0x8b44f7af, 0xffff5bb1, 0x895cd7be,
   0x6b901122, 0xfd987193, 0xa679438e, 0x49b40821,
   0xf61e2562, 0xc040b340, 0x265e5a51, 0xe9b6c7aa,
   0xd62f105d, 0x02441453, 0xd8a1e681, 0xe7d3fbc8,
   0x21e1cde6, 0xc33707d6, 0xf4d50d87, 0x455a14ed,
   0xa9e3e905, 0xfcefa3f8, 0x676f02d9, 0x8d2a4c8a,
   0xfffa3942, 0x8771f681, 0x6d9d6122, 0xfde5380c,
   0xa4beea44, 0x4bdecfa9, 0xf6bb4b60, 0xbebfbc70,
   0x289b7ec6, 0xeaa127fa, 0xd4ef3085, 0x04881d05,
   0xd9d4d039, 0xe6db99e5, 0x1fa27cf8, 0xc4ac5665,
   0xf4292244, 0x432aff97, 0xab9423a7, 0xfc93a039,
   0x655b59c3, 0x8f0ccc92, 0xffeff47d, 0x85845dd1,
   0x6fa87e4f, 0xfe2ce6e0, 0xa3014314, 0x4e0811a1,
   0xf7537e82, 0xbd3af235, 0x2ad7d2bb, 0xeb86d391]

/-- The 64 MD5 per-step rotation amounts. -/
def md5S : List Nat :=
  [7, 12, 17, 22, 7, 12, 17, 22, 7, 12, 17, 22, 7, 12, 17, 22,
   5, 9, 14, 20, 5, 9, 14, 20, 5, 9, 14, 20, 5, 9, 14, 20,
   4, 11, 16, 23, 4, 11, 16, 23, 4, 11, 16, 23, 4, 11, 16, 23,
   6, 10, 15, 21, 6, 10, 15, 21, 6, 10, 15, 21, 6, 10, 15, 21]

/-- Four-word hash state (MD5). -/
structure Md5State where
  a : Nat
  b : Nat
  c : Nat
  d : Nat

/-- One MD5 step on the working state, for step index `i` and block words `M`. -/
def md5Step (M : List Nat) (st : Md5State) (i : Nat) : Md5State :=
  let fg : Nat × Nat :=
    if i < 16 then ((st.b &&& st.c) ||| (wnot 32 st.b &&& st.d), i)
    else if i < 32 then ((st.d &&& st.b) ||| (wnot 32 st.d &&& st.c), (5 * i + 1) % 16)
    else if i < 48 then (st.b ^^^ st.c ^^^ st.d, (3 * i + 5) % 16)
    else (st.c ^^^ (st.b ||| wnot 32 st.d), (7 * i) % 16)
  let t := (fg.1 + st.a + md5K.getD i 0 + M.getD fg.2 0) % 0x100000000
  ⟨st.d, (st.b + rotl 32 t (md5S.getD i 0)) % 0x100000000, st.b, st.c⟩

/-- Process one 64-byte MD5 block. -/
def md5Block (st : Md5State) (block : List Nat) : Md5State :=
  let M := (chunksOf 4 block).map wordLE32
  let w := (List.range 64).foldl (md5Step M) st
  ⟨(st.a + w.a) % 0x100000000, (st.b + w.b) % 0x100000000,
   (st.c + w.c) % 0x100000000, (st.d + w.d) % 0x100000000⟩

/-- Merkle–Damgård padding: append `0x80`, zeros, then the bit length
in `lenBytes` bytes (little-endian when `le` is true, else big-endian). -/
def mdPad (lenBytes : Nat) (le : Bool) (blockSize : Nat) (data : List Nat) : List Nat :=
  let bitLen := 8 * data.length
  let lenField :=
    if le then (u64le (bitLen % 2 ^ 64)).take lenBytes
    else (List.replicate (lenBytes - 8) 0) ++ u64be (bitLen % 2 ^ 64)
  let padZeros := (blockSize - (data.length + 1 + lenBytes) % blockSize) % blockSize
  data ++ [0x80] ++ List.replicate padZeros 0 ++ lenField

/-- MD5 digest (16 bytes) of a byte string. -/
def md5Bytes (data : List Nat) : List Nat :=
  let blocks := chunksOf 64 (mdPad 8 true 64 data)
  let st := blocks.foldl md5Block ⟨0x67452301, 0xefcdab89, 0x98badcfe, 0x10325476⟩
  u32le st.a ++ u32le st.b ++ u32le st.c ++ u32le st.d

/-! ## SHA-1 (`hashlib.sha1`) -/

/-- Five-word hash state (SHA-1). -/
structure Sha1State where
  h0 : Nat
  h1 : Nat
  h2 : Nat
  h3 : Nat
  h4 : Nat

/-- SHA-1 message schedule: expand 16 block words to 80. -/
def sha1Schedule (M : List Nat) : List Nat :=
  (List.range 80).foldl (fun W i =>
    if i < 16 then W ++ [M.getD i 0]
    else W ++ [rotl 32 (W.getD (i - 3) 0 ^^^ W.getD (i - 8) 0 ^^^
                        W.getD (i - 14) 0 ^^^ W.getD (i - 16) 0) 1]) []

/-- One SHA-1 round on the working state. -/
def sha1Step (W : List Nat) (st : Sha1State) (i : Nat) : Sha1State :=
  let fk : Nat × Nat :=
    if i < 20 then ((st.h1 &&& st.h2) ||| (wnot 32 st.h1 &&& st.h3), 0x5A827999)
    else if i < 40 then (st.h1 ^^^ st.h2 ^^^ st.h3, 0x6ED9EBA1)
    else if i < 60 then
      ((st.h1 &&& st.h2) ||| (st.h1 &&& st.h3) ||| (st.h2 &&& st.h3), 0x8F1BBCDC)
    else (st.h1 ^^^ st.h2 ^^^ st.h3, 0xCA62C1D6)
  let temp := (rotl 32 st.h0 5 + fk.1 + st.h4 + fk.2 + W.getD i 0) % 0x100000000
  ⟨temp, st.h0, rotl 32 st.h1 30, st.h2, st.h3⟩

/-- Process one 64-byte SHA-1 block. -/
def sha1Block (st : Sha1State) (block : List Nat) : Sha1State :=
  let W := sha1Schedule ((chunksOf 4 block).map wordBE32)
  let w := (List.range 80).foldl (sha1Step W) st
  ⟨(st.h0 + w.h0) % 0x100000000, (st.h1 + w.h1) % 0x100000000,
   (st.h2 + w.h2) % 0x100000000, (st.h3 + w.h3) % 0x100000000,
   (st.h4 + w.h4) % 0x100000000⟩

/-- SHA-1 digest (20 bytes) of a byte string. -/
def sha1Bytes (data : List Nat) : List Nat :=
  let blocks := chunksOf 64 (mdPad 8 false 64 data)
  let st := blocks.foldl sha1Block
    ⟨0x67452301, 0xEFCDAB89, 0x98BADCFE, 0x10325476, 0xC3D2E1F0⟩
  u32be st.h0 ++ u32be st.h1 ++ u32be st.h2 ++ u32be st.h3 ++ u32be st.h4

/-! ## SHA-2 family (`hashlib.sha256`, `hashlib.sha512`) -/

/-- Eight-word hash state (SHA-2). -/
structure Hash8 where
  a : Nat
  b : Nat
  c : Nat
  d : Nat
  e : Nat
  f : Nat
  g : Nat
  h : Nat

/-- Parameters distinguishing SHA-256 from SHA-512: word size, round count,
round constants, and the rotation/shift amounts of the four sigma functions. -/
structure Sha2Params where
  w : Nat
  rounds : Nat
  K : List Nat
  r00 : Nat
  r01 : Nat
  r02 : Nat
  r10 : Nat
  r11 : Nat
  r12 : Nat
  s00 : Nat
  s01 : Nat
  s02 : Nat
  s10 : Nat
  s11 : Nat
  s12 : Nat

/-- Big sigma-0 of SHA-2. -/
def bsig0 (p : Sha2Params) (x : Nat) : Nat :=
  rotr p.w x p.r00 ^^^ rotr p.w x p.r01 ^^^ rotr p.w x p.r02

/-- Big sigma-1 of SHA-2. -/
def bsig1 (p : Sha2Params) (x : Nat) : Nat :=
  rotr p.w x p.r10 ^^^ rotr p.w x p.r11 ^^^ rotr p.w x p.r12

/-- Small sigma-0 of SHA-2. -/
def ssig0 (p : Sha2Params) (x : Nat) : Nat :=
  rotr p.w x p.s00 ^^^ rotr p.w x p.s01 ^^^ (x >>> p.s02)

/-- Small sigma-1 of SHA-2. -/
def ssig1 (p : Sha2Params) (x : Nat) : Nat :=
  rotr p.w x p.s10 ^^^ rotr p.w x p.s11 ^^^ (x >>> p.s12)

/-- Big-endian word value of a byte chunk. -/
def wordBE (bs : List Nat) : Nat :=
  bs.foldl (fun acc b => acc * 0x100 + b) 0

/-- Big-endian serialization of a `w`-bit word into `n` bytes. -/
def beBytes (n w : Nat) : List Nat :=
  (List.range n).map (fun i => w / 0x100 ^ (n - 1 - i) % 0x100)

/-- SHA-2 message schedule: expand 16 block words to `p.rounds`. -/
def sha2Schedule (p : Sha2Params) (M : List Nat) : List Nat :=
  (List.range p.rounds).foldl (fun W i =>
    if i < 16 then W ++ [M.getD i 0]
    else W ++ [(ssig1 p (W.getD (i - 2) 0) + W.getD (i - 7) 0 +
                ssig0 p (W.getD (i - 15) 0) + W.getD (i - 16) 0) % 2 ^ p.w]) []

/-- One SHA-2 round on the working state. -/
def sha2Step (p : Sha2Params) (W : List Nat) (st : Hash8) (i : Nat) : Hash8 :=
  let ch := (st.e &&& st.f) ^^^ (wnot p.w st.e &&& st.g)
  let maj := (st.a &&& st.b) ^^^ (st.a &&& st.c) ^^^ (st.b &&& st.c)
  let t1 := (st.h + bsig1 p st.e + ch + p.K.getD i 0 + W.getD i 0) % 2 ^ p.w
  let t2 := (bsig0 p st.a + maj) % 2 ^ p.w
  ⟨(t1 + t2) % 2 ^ p.w, st.a, st.b, st.c, (st.d + t1) % 2 ^ p.w, st.e, st.f, st.g⟩

/-- Process one SHA-2 block. -/
def sha2Block (p : Sha2Params) (st : Hash8) (block : List Nat) : Hash8 :=
  let W := sha2Schedule p ((chunksOf (p.w / 8) block).map wordBE)
  let w := (List.range p.rounds).foldl (sha2Step p W) st
  ⟨(st.a + w.a) % 2 ^ p.w, (st.b + w.b) % 2 ^ p.w, (st.c + w.c) % 2 ^ p.w,
   (st.d + w.d) % 2 ^ p.w, (st.e + w.e) % 2 ^ p.w, (st.f + w.f) % 2 ^ p.w,
   (st.g + w.g) % 2 ^ p.w, (st.h + w.h) % 2 ^ p.w⟩

/-- Generic SHA-2 digest over blocks of `blockSize` bytes with length field
of `lenBytes` bytes, starting from state `init`. -/
def sha2Bytes (p : Sha2Params) (blockSize lenBytes : Nat) (init : Hash8)
    (data : List Nat) : List Nat :=
  let blocks := chunksOf blockSize (mdPad lenBytes false blockSize data)
  let st := blocks.foldl (sha2Block p) init
  let n := p.w / 8
  beBytes n st.a ++ beBytes n st.b ++ beBytes n st.c ++ beBytes n st.d ++
  beBytes n st.e ++ beBytes n st.f ++ beBytes n st.g ++ beBytes n st.h

/-- The 64 SHA-256 round constants. -/
def sha256K : List Nat :=
  [0x428a2f98, 0x71374491, 0xb5c0fbcf, 0xe9b5dba5, 0x3956c25b, 0x59f111f1,
   0x923f82a4, 0xab1c5ed5] ++
  [0xd807aa98, 0x12835b01, 0x243185be, 0x550c7dc3,
   0x72be5d74, 0x80deb1fe, 0x9bdc06a7, 0xc19bf174] ++
  [0xe49b69c1, 0xefbe4786,
   0x0fc19dc6, 0x240ca1cc, 0x2de92c6f, 0x4a7484aa, 0x5cb0a9dc, 0x76f988da] ++
  [0x983e5152, 0xa831c66d, 0xb00327c8, 0xbf597fc7, 0xc6e00bf3, 0xd5a79147,
   0x06ca6351, 0x14292967] ++
  [0x27b70a85, 0x2e1b2138, 0x4d2c6dfc, 0x53380d13,
   0x650a7354, 0x766a0abb, 0x81c2c92e, 0x92722c85] ++
  [0xa2bfe8a1, 0xa81a664b,
   0xc24b8b70, 0xc76c51a3, 0xd192e819, 0xd6990624, 0xf40e3585, 0x106aa070] ++
  [0x19a4c116, 0x1e376c08, 0x2748774c, 0x34b0bcb5, 0x391c0cb3, 0x4ed8aa4a,
   0x5b9cca4f, 0x682e6ff3] ++
  [0x748f82ee, 0x78a5636f, 0x84c87814, 0x8cc70208,
   0x90befffa, 0xa4506ceb, 0xbef9a3f7, 0xc67178f2]

/-- SHA-256 parameter set. -/
def sha256P : Sha2Params :=
  ⟨32, 64, sha256K, 2, 13, 22, 6, 11, 25, 7, 18, 3, 17, 19, 10⟩

/-- SHA-256 digest (32 bytes) of a byte string. -/
def sha256Bytes (data : List Nat) : List Nat :=
  sha2Bytes sha256P 64 8
    ⟨0x6a09e667, 0xbb67ae85, 0x3c6ef372, 0xa54ff53a,
     0x510e527f, 0x9b05688c, 0x1f83d9ab, 0x5be0cd19⟩ data

/-- The 80 SHA-512 round constants. -/
def sha512K : List Nat :=
  [0x428a2f98d728ae22, 0x7137449123ef65cd, 0xb5c0fbcfec4d3b2f, 0xe9b5dba58189dbbc,
   0x3956c25bf348b538, 0x59f111f1b605d019, 0x923f82a4af194f9b, 0xab1c5ed5da6d8118] ++
  [0xd807aa98a3030242, 0x12835b0145706fbe, 0x243185be4ee4b28c, 0x550c7dc3d5ffb4e2,
   0x72be5d74f27b896f, 0x80deb1fe3b1696b1, 0x9bdc06a725c71235, 0xc19bf174cf692694] ++
  [0xe49b69c19ef14ad2, 0xefbe4786384f25e3, 0x0fc19dc68b8cd5b5, 0x240ca1cc77ac9c65,
   0x2de92c6f592b0275, 0x4a7484aa6ea6e483, 0x5cb0a9dcbd41fbd4, 0x76f988da831153b5] ++
  [0x983e5152ee66dfab, 0xa831c66d2db43210, 0xb00327c898fb213f, 0xbf597fc7beef0ee4,
   0xc6e00bf33da88fc2, 0xd5a79147930aa725, 0x06ca6351e003826f, 0x142929670a0e6e70] ++
  [0x27b70a8546d22ffc, 0x2e1b21385c26c926, 0x4d2c6dfc5ac42aed, 0x53380d139d95b3df,
   0x650a73548baf63de, 0x766a0abb3c77b2a8, 0x81c2c92e47edaee6, 0x92722c851482353b] ++
  [0xa2bfe8a14cf10364, 0xa81a664bbc423001, 0xc24b8b70d0f89791, 0xc76c51a30654be30,
   0xd192e819d6ef5218, 0xd69906245565a910, 0xf40e35855771202a, 0x106aa07032bbd1b8] ++
  [0x19a4c116b8d2d0c8, 0x1e376c085141ab53, 0x2748774cdf8eeb99, 0x34b0bcb5e19b48a8,
   0x391c0cb3c5c95a63, 0x4ed8aa4ae3418acb, 0x5b9cca4f7763e373, 0x682e6ff3d6b2b8a3] ++
  [0x748f82ee5defb2fc, 0x78a5636f43172f60, 0x84c87814a1f0ab72, 0x8cc702081a6439ec,
   0x90befffa23631e28, 0xa4506cebde82bde9, 0xbef9a3f7b2c67915, 0xc67178f2e372532b] ++
  [0xca273eceea26619c, 0xd186b8c721c0c207, 0xeada7dd6cde0eb1e, 0xf57d4f7fee6ed178,
   0x06f067aa72176fba, 0x0a637dc5a2c898a6, 0x113f9804bef90dae, 0x1b710b35131c471b] ++
  [0x28db77f523047d84, 0x32caab7b40c72493, 0x3c9ebe0a15c9bebc, 0x431d67c49c100d4c,
   0x4cc5d4becb3e42b6, 0x597f299cfc657e2a, 0x5fcb6fab3ad6faec, 0x6c44198c4a475817]

/-- SHA-512 parameter set. -/
def sha512P : Sha2Params :=
  ⟨64, 80, sha512K, 28, 34, 39, 14, 18, 41, 1, 8, 7, 19, 61, 6⟩

/-- SHA-512 digest (64 bytes) of a byte string. -/
def sha512Bytes (data : List Nat) : List Nat :=
  sha2Bytes sha512P 128 16
    ⟨0x6a09e667f3bcc908, 0xbb67ae8584caa73b, 0x3c6ef372fe94f82b, 0xa54ff53a5f1d36f1,
     0x510e527fade682d1, 0x9b05688c2b3e6c1f, 0x1f83d9abfb41bd6b, 0x5be0cd19137e2179⟩ data

/-! ## SHA-3 family (`hashlib.sha3_256`, `hashlib.sha3_512`): Keccak-f[1600] -/

/-- Keccak rho rotation offsets, indexed by lane `x + 5 * y`. -/
def keccakRho : List Nat :=
  [0, 1, 62, 28, 27, 36, 44, 6, 55, 20, 3, 10, 43] ++
  [25, 39, 41, 45, 15, 21, 8, 18, 2, 61, 56, 14]

/-- Keccak round constants for the 24 rounds of Keccak-f[1600]. -/
def keccakRC : List Nat :=
  [0x0000000000000001, 0x0000000000008082, 0x800000000000808a, 0x8000000080008000,
   0x000000000000808b, 0x0000000080000001, 0x8000000080008081, 0x8000000000008009,
   0x000000000000008a, 0x0000000000000088, 0x0000000080008009, 0x000000008000000a,
   0x000000008000808b, 0x800000000000008b, 0x8000000000008089, 0x8000000000008003,
   0x8000000000008002, 0x8000000000000080, 0x000000000000800a, 0x800000008000000a,
   0x8000000080008081, 0x8000000000008080, 0x0000000080000001, 0x8000000080008008]

/-- One Keccak-f round (theta, rho, pi, chi, iota) on the 25-lane state. -/
def keccakRound (s : List Nat) (rc : Nat) : List Nat :=
  let C := (List.range 5).map (fun x =>
    s.getD x 0 ^^^ s.getD (x + 5) 0 ^^^ s.getD (x + 10) 0 ^^^
    s.getD (x + 15) 0 ^^^ s.getD (x + 20) 0)
  let D := (List.range 5).map (fun x =>
    C.getD ((x + 4) % 5) 0 ^^^ rotl 64 (C.getD ((x + 1) % 5) 0) 1)
  let A1 := (List.range 25).map (fun j => s.getD j 0 ^^^ D.getD (j % 5) 0)
  let B := (List.range 25).map (fun j =>
    let y := j % 5
    let x := (j % 5 + 3 * (j / 5)) % 5
    rotl 64 (A1.getD (x + 5 * y) 0) (keccakRho.getD (x + 5 * y) 0))
  let A2 := (List.range 25).map (fun j =>
    let x := j % 5
    let y := j / 5
    B.getD j 0 ^^^ (wnot 64 (B.getD ((x + 1) % 5 + 5 * y) 0) &&& B.getD ((x + 2) % 5 + 5 * y) 0))
  A2.set 0 (A2.getD 0 0 ^^^ rc)

/-- The full Keccak-f[1600] permutation (24 rounds). -/
def keccakF (s : List Nat) : List Nat :=
  keccakRC.foldl keccakRound s

/-- Absorb one rate-sized block into the state and permute. -/
def keccakAbsorb (s : List Nat) (block : List Nat) : List Nat :=
  let lanes := (chunksOf 8 block).map wordLE64 ++ List.replicate 25 0
  keccakF (List.zipWith (· ^^^ ·) s lanes)

/-- SHA-3 padding: append `0x06`, zero-fill to a multiple of `rate`, and
set the top bit of the final byte. -/
def sha3Pad (rate : Nat) (data : List Nat) : List Nat :=
  let m := data ++ [0x06]
  let padded := m ++ List.replicate ((rate - m.length % rate) % rate) 0
  padded.set (padded.length - 1) (padded.getD (padded.length - 1) 0 ||| 0x80)

/-- SHA-3 digest of `outLen` bytes at sponge rate `rate`. -/
def sha3Bytes (rate outLen : Nat) (data : List Nat) : List Nat :=
  let blocks := chunksOf rate (sha3Pad rate data)
  let s := blocks.foldl keccakAbsorb (List.replicate 25 0)
  ((s.map u64le).flatten).take outLen

/-- SHA3-256 digest (32 bytes) of a byte string. -/
def sha3_256Bytes (data : List Nat) : List Nat :=
  sha3Bytes 136 32 data

/-- SHA3-512 digest (64 bytes) of a byte string. -/
def sha3_512Bytes (data : List Nat) : List Nat :=
  sha3Bytes 72 64 data

/-! ## BLAKE2b (`hashlib.blake2b`, default 64-byte digest, no key) -/

/-- BLAKE2b initialization vector (the SHA-512 initial state words). -/
def b2bIV : List Nat :=
  [0x6a09e667f3bcc908, 0xbb67ae8584caa73b, 0x3c6ef372fe94f82b, 0xa54ff53a5f1d36f1,
   0x510e527fade682d1, 0x9b05688c2b3e6c1f, 0x1f83d9abfb41bd6b, 0x5be0cd19137e2179]

/-- BLAKE2b message word permutation table, 10 rows of 16 indices. -/
def b2bSigma : List (List Nat) :=
  [[0, 1, 2, 3, 4, 5, 6, 7, 8, 9, 10, 11, 12, 13, 14, 15],
   [14, 10, 4, 8, 9, 15, 13, 6, 1, 12, 0, 2, 11, 7, 5, 3],
   [11, 8, 12, 0, 5, 2, 15, 13, 10, 14, 3, 6, 7, 1, 9, 4],
   [7, 9, 3, 1, 13, 12, 11, 14, 2, 6, 5, 10, 4, 0, 15, 8],
   [9, 0, 5, 7, 2, 4, 10, 15, 14, 1, 11, 12, 6, 8, 3, 13],
   [2, 12, 6, 10, 0, 11, 8, 3, 4, 13, 7, 5, 15, 14, 1, 9],
   [12, 5, 1, 15, 14, 13, 4, 10, 0, 7, 6, 3, 9, 2, 8, 11],
   [13, 11, 7, 14, 12, 1, 3, 9, 5, 0, 15, 4, 8, 6, 2, 10],
   [6, 15, 14, 9, 11, 3, 0, 8, 12, 2, 13, 7, 1, 4, 10, 5],
   [10, 2, 8, 4, 7, 6, 1, 5, 15, 11, 9, 14, 3, 12, 13, 0]]

/-- The BLAKE2b mixing function G on the 16-word working vector. -/
def b2bG (v : List Nat) (a b c d x y : Nat) : List Nat :=
  let va := (v.getD a 0 + v.getD b 0 + x) % 2 ^ 64
  let vd := rotr 64 (v.getD d 0 ^^^ va) 32
  let vc := (v.getD c 0 + vd) % 2 ^ 64
  let vb := rotr 64 (v.getD b 0 ^^^ vc) 24
  let va2 := (va + vb + y) % 2 ^ 64
  let vd2 := rotr 64 (vd ^^^ va2) 16
  let vc2 := (vc + vd2) % 2 ^ 64
  let vb2 := rotr 64 (vb ^^^ vc2) 63
  ((((v.set a va2).set b vb2).set c vc2).set d vd2)

/-- One BLAKE2b round: eight G applications with the round's sigma row. -/
def b2bRound (m : List Nat) (v : List Nat) (r : Nat) : List Nat :=
  let s := b2bSigma.getD (r % 10) []
  let mi := fun i => m.getD (s.getD i 0) 0
  let v1 := b2bG v 0 4 8 12 (mi 0) (mi 1)
  let v2 := b2bG v1 1 5 9 13 (mi 2) (mi 3)
  let v3 := b2bG v2 2 6 10 14 (mi 4) (mi 5)
  let v4 := b2bG v3 3 7 11 15 (mi 6) (mi 7)
  let v5 := b2bG v4 0 5 10 15 (mi 8) (mi 9)
  let v6 := b2bG v5 1 6 11 12 (mi 10) (mi 11)
  let v7 := b2bG v6 2 7 8 13 (mi 12) (mi 13)
  b2bG v7 3 4 9 14 (mi 14) (mi 15)

/-- BLAKE2b compression of one 128-byte block at byte counter `t`. -/
def b2bCompress (h : List Nat) (block : List Nat) (t : Nat) (last : Bool) : List Nat :=
  let m := (chunksOf 8 block).map wordLE64
  let v0 := h ++ b2bIV
  let v1 := v0.set 12 (v0.getD 12 0 ^^^ t % 2 ^ 64)
  let v2 := v1.set 13 (v1.getD 13 0 ^^^ t / 2 ^ 64 % 2 ^ 64)
  let v3 := if last then v2.set 14 (wnot 64 (v2.getD 14 0)) else v2
  let v := (List.range 12).foldl (b2bRound m) v3
  (List.range 8).map (fun i => h.getD i 0 ^^^ v.getD i 0 ^^^ v.getD (i + 8) 0)

/-- Fold BLAKE2b compression over the message blocks; the final block is
zero-padded to 128 bytes and compressed with the final flag and the total
message length as counter. -/
def b2bFold (h : List Nat) (t0 : Nat) : List (List Nat) → List Nat
  | [] => h
  | [b] => b2bCompress h (b ++ List.replicate (128 - b.length) 0) (t0 + b.length) true
  | b :: rest => b2bFold (b2bCompress h b (t0 + 128) false) (t0 + 128) rest

/-- BLAKE2b-512 digest (64 bytes) of a byte string, unkeyed. -/
def blake2bBytes (data : List Nat) : List Nat :=
  let h0 := b2bIV.set 0 (b2bIV.getD 0 0 ^^^ 0x01010040)
  let blocks := if data.length = 0 then [[]] else chunksOf 128 data
  ((b2bFold h0 0 blocks).map u64le).flatten

/-! ## JSON (`json.loads` / `json.dumps(..., sort_keys=True, separators=(',', ':'))`)

JSON values as parsed by Python: objects are insertion-ordered dictionaries
(duplicate keys resolved by in-place replacement), integral number literals
become `int`, and non-integral ones (floats, `NaN`, `Infinity`) are kept
here as their source token — the embedding is faithful up to Python's float
re-formatting, which no claim depends on. -/

inductive JValue where
  | jnull
  | jbool (b : Bool)
  | jint (n : Int)
  | jnum (raw : String)
  | jstr (s : String)
  | jarr (items : List JValue)
  | jobj (entries : List (String × JValue))
deriving Repr

/-- The double-quote character. -/
def dquote : Char := Char.ofNat 34

/-- The backslash character. -/
def bslash : Char := Char.ofNat 92

/-- The opening-brace character. -/
def lbrace : Char := Char.ofNat 123

/-- The closing-brace character. -/
def rbrace : Char := Char.ofNat 125

/-- JSON whitespace accepted between tokens. -/
def jsonWs (c : Char) : Bool :=
  c == ' ' || c == '\t' || c == '\n' || c == '\r'

/-- Drop leading JSON whitespace. -/
def skipWs : List Char → List Char
  | [] => []
  | c :: cs => if jsonWs c then skipWs cs else c :: cs

/-- Value of a hexadecimal digit character, if any. -/
def hexVal (c : Char) : Option Nat :=
  if '0' ≤ c && c ≤ '9' then some (c.toNat - 48)
  else if 'a' ≤ c && c ≤ 'f' then some (c.toNat - 87)
  else if 'A' ≤ c && c ≤ 'F' then some (c.toNat - 55)
  else none

/-- Match a literal character sequence, returning the remainder. -/
def litMatch : List Char → List Char → Option (List Char)
  | [], cs => some cs
  | _ :: _, [] => none
  | l :: ls, c :: cs => if c == l then litMatch ls cs else none

/-- Parse four hex digits of a `\uXXXX` escape. -/
def parseU4 : List Char → Option (Nat × List Char)
  | a :: b :: c :: d :: rest => do
    let va ← hexVal a
    let vb ← hexVal b
    let vc ← hexVal c
    let vd ← hexVal d
    some (va * 0x1000 + vb * 0x100 + vc * 0x10 + vd, rest)
  | _ => none

/-- Parse the body of a JSON string (after the opening quote) up to the
closing quote.  Escape sequences follow Python `json`: the short escapes,
`\uXXXX` with surrogate-pair combination, and a rejection of raw control
characters.  A lone surrogate is modelled as U+FFFD (Lean characters are
Unicode scalar values). -/
def parseStrAux : Nat → List Char → Option (List Char × List Char)
  | 0, _ => none
  | _, [] => none
  | fuel + 1, c :: cs =>
    if c == dquote then some ([], cs)
    else if c == bslash then
      match cs with
      | [] => none
      | e :: cs2 =>
        if e == dquote then (parseStrAux fuel cs2).map (fun r => (dquote :: r.1, r.2))
        else if e == bslash then (parseStrAux fuel cs2).map (fun r => (bslash :: r.1, r.2))
        else if e == '/' then (parseStrAux fuel cs2).map (fun r => ('/' :: r.1, r.2))
        else if e == 'b' then (parseStrAux fuel cs2).map (fun r => ('\x08' :: r.1, r.2))
        else if e == 'f' then (parseStrAux fuel cs2).map (fun r => ('\x0c' :: r.1, r.2))
        else if e == 'n' then (parseStrAux fuel cs2).map (fun r => ('\n' :: r.1, r.2))
        else if e == 'r' then (parseStrAux fuel cs2).map (fun r => ('\r' :: r.1, r.2))
        else if e == 't' then (parseStrAux fuel cs2).map (fun r => ('\t' :: r.1, r.2))
        else if e == 'u' then
          match parseU4 cs2 with
          | none => none
          | some (n, cs3) =>
            if 0xD800 ≤ n && n ≤ 0xDBFF then
              match cs3 with
              | b1 :: u1 :: cs4 =>
                if b1 == bslash && u1 == 'u' then
                  match parseU4 cs4 with
                  | some (m, cs5) =>
                    if 0xDC00 ≤ m && m ≤ 0xDFFF then
                      (parseStrAux fuel cs5).map (fun r =>
                        (Char.ofNat (0x10000 + (n - 0xD800) * 0x400 + (m - 0xDC00)) :: r.1, r.2))
                    else (parseStrAux fuel cs3).map (fun r => (Char.ofNat 0xFFFD :: r.1, r.2))
                  | none => (parseStrAux fuel cs3).map (fun r => (Char.ofNat 0xFFFD :: r.1, r.2))
                else (parseStrAux fuel cs3).map (fun r => (Char.ofNat 0xFFFD :: r.1, r.2))
              | _ => (parseStrAux fuel cs3).map (fun r => (Char.ofNat 0xFFFD :: r.1, r.2))
            else if 0xDC00 ≤ n && n ≤ 0xDFFF then
              (parseStrAux fuel cs3).map (fun r => (Char.ofNat 0xFFFD :: r.1, r.2))
            else
              (parseStrAux fuel cs3).map (fun r => (Char.ofNat n :: r.1, r.2))
        else none
    else if c.toNat < 0x20 then none
    else (parseStrAux fuel cs).map (fun r => (c :: r.1, r.2))

/-- Numeric value of a list of decimal digit characters. -/
def digitsToNat (ds : List Char) : Nat :=
  ds.foldl (fun a c => a * 10 + (c.toNat - 48)) 0

/-- Parse a JSON number (strict JSON grammar, as Python `json` accepts):
integral literals become `jint`, others keep their token as `jnum`. -/
def parseNumber (cs : List Char) : Option (JValue × List Char) :=
  let signed := match cs with
    | c :: r => if c == '-' then (true, r) else (false, cs)
    | [] => (false, cs)
  let ip := signed.2.span Char.isDigit
  if ip.1.isEmpty then none
  else if 2 ≤ ip.1.length && ip.1.headD '0' == '0' then none
  else
    let frac : Option (List Char × List Char) :=
      match ip.2 with
      | '.' :: r =>
        let ds := r.span Char.isDigit
        if ds.1.isEmpty then none else some ('.' :: ds.1, ds.2)
      | _ => some ([], ip.2)
    match frac with
    | none => none
    | some (fracT, r2) =>
      let ex : Option (List Char × List Char) :=
        match r2 with
        | e :: r =>
          if e == 'e' || e == 'E' then
            let body := match r with
              | s :: r3 => if s == '+' || s == '-' then (s :: [], r3) else ([], r)
              | [] => ([], r)
            let ds := body.2.span Char.isDigit
            if ds.1.isEmpty then none else some (e :: body.1 ++ ds.1, ds.2)
          else some ([], r2)
        | [] => some ([], r2)
      match ex with
      | none => none
      | some (expT, rest) =>
        if fracT.isEmpty && expT.isEmpty then
          let n : Int := Int.ofNat (digitsToNat ip.1)
          some (.jint (if signed.1 then -n else n), rest)
        else
          let tok := (if signed.1 then ['-'] else []) ++ ip.1 ++ fracT ++ expT
          some (.jnum (String.mk tok), rest)

/-- Insert a key into an insertion-ordered dictionary: replace the value in
place when the key exists, append otherwise (Python `dict` semantics). -/
def objInsert (k : String) (v : JValue) : List (String × JValue) → List (String × JValue)
  | [] => [(k, v)]
  | e :: es => if e.1 == k then (e.1, v) :: es else e :: objInsert k v es

mutual

/-- Parse a JSON value (fuel-bounded recursive descent). -/
def parseVal : Nat → List Char → Option (JValue × List Char)
  | 0, _ => none
  | fuel + 1, cs0 =>
    let cs := skipWs cs0
    match litMatch "null".data cs with
    | some r => some (.jnull, r)
    | none =>
    match litMatch "true".data cs with
    | some r => some (.jbool true, r)
    | none =>
    match litMatch "false".data cs with
    | some r => some (.jbool false, r)
    | none =>
    match litMatch "NaN".data cs with
    | some r => some (.jnum "NaN", r)
    | none =>
    match litMatch "Infinity".data cs with
    | some r => some (.jnum "Infinity", r)
    | none =>
    match litMatch "-Infinity".data cs with
    | some r => some (.jnum "-Infinity", r)
    | none =>
    match cs with
    | [] => none
    | c :: rest =>
      if c == dquote then (parseStrAux fuel rest).map (fun r => (.jstr (String.mk r.1), r.2))
      else if c == '[' then
        match skipWs rest with
        | ']' :: r2 => some (.jarr [], r2)
        | cs2 => parseArrElems fuel cs2 []
      else if c == lbrace then
        match skipWs rest with
        | c2 :: r2 =>
          if c2 == rbrace then some (.jobj [], r2)
          else parseObjBody fuel (c2 :: r2) []
        | [] => none
      else parseNumber cs

/-- Parse the comma-separated elements of an array, after `[`. -/
def parseArrElems : Nat → List Char → List JValue → Option (JValue × List Char)
  | 0, _, _ => none
  | fuel + 1, cs, acc =>
    match parseVal fuel cs with
    | none => none
    | some (v, rest) =>
      match skipWs rest with
      | ',' :: r2 => parseArrElems fuel r2 (acc ++ [v])
      | ']' :: r2 => some (.jarr (acc ++ [v]), r2)
      | _ => none

/-- Parse the members of an object, after `{` (at a key). -/
def parseObjBody : Nat → List Char → List (String × JValue) → Option (JValue × List Char)
  | 0, _, _ => none
  | fuel + 1, cs, acc =>
    match skipWs cs with
    | c :: rest =>
      if c == dquote then
        match parseStrAux fuel rest with
        | none => none
        | some (key, r1) =>
          match skipWs r1 with
          | ':' :: r2 =>
            match parseVal fuel r2 with
            | none => none
            | some (v, r3) =>
              let acc2 := objInsert (String.mk key) v acc
              match skipWs r3 with
              | ',' :: r4 => parseObjBody fuel r4 acc2
              | c2 :: r4 => if c2 == rbrace then some (.jobj acc2, r4) else none
              | [] => none
          | _ => none
      else none
    | [] => none

end

/-- Python `json.loads`: parse a complete JSON document. -/
def json_loads (s : String) : Option JValue :=
  match parseVal (s.data.length + 2) s.data with
  | some (v, rest) => if skipWs rest = [] then some v else none
  | none => none

/-- Zero-padded 4-digit lowercase hex for `\uXXXX` escapes. -/
def hex4 (n : Nat) : List Char :=
  (hexPad 4 n).data

/-- Escape one character as Python `json.dumps` does with the default
`ensure_ascii=True`: short escapes, `\u00XX` for other control characters,
and `\uXXXX` (with surrogate pairs) for all non-ASCII characters. -/
def escChar (c : Char) : List Char :=
  if c == dquote then [bslash, dquote]
  else if c == bslash then [bslash, bslash]
  else if c == '\n' then [bslash, 'n']
  else if c == '\r' then [bslash, 'r']
  else if c == '\t' then [bslash, 't']
  else if c == '\x08' then [bslash, 'b']
  else if c == '\x0c' then [bslash, 'f']
  else if c.toNat < 0x20 then bslash :: 'u' :: hex4 c.toNat
  else if c.toNat < 0x7f then [c]
  else if c.toNat < 0x10000 then bslash :: 'u' :: hex4 c.toNat
  else
    let n := c.toNat - 0x10000
    bslash :: 'u' :: hex4 (0xD800 + n / 0x400) ++ bslash :: 'u' :: hex4 (0xDC00 + n % 0x400)

/-- Serialize a string as a JSON string literal. -/
def jstrRender (s : String) : String :=
  String.mk (dquote :: (s.data.map escChar).flatten ++ [dquote])

/-- Lexicographic code-point comparison of character lists (how Python
compares `str` values). -/
def charListLt : List Char → List Char → Bool
  | [], [] => false
  | [], _ :: _ => true
  | _ :: _, [] => false
  | a :: as, b :: bs =>
    if a.toNat < b.toNat then true
    else if b.toNat < a.toNat then false
    else charListLt as bs

/-- Python string comparison `a < b`. -/
def keyLt (a b : String) : Bool :=
  charListLt a.data b.data

/-- Insert an entry into a key-sorted entry list (keys compared as Python
compares `str`: lexicographically by code point). -/
def insertByKey (e : String × α) : List (String × α) → List (String × α)
  | [] => [e]
  | f :: fs => if keyLt e.1 f.1 then e :: f :: fs else f :: insertByKey e fs

/-- Sort an entry list by key (insertion sort, stable). -/
def sortByKey : List (String × α) → List (String × α)
  | [] => []
  | e :: es => insertByKey e (sortByKey es)

/-- Python `json.dumps(v, sort_keys=True, separators=(',', ':'))`: compact
serialization with the members of every object ordered by key.  (Each entry
is rendered and the rendered entries are ordered by their key; since keys in
a parsed object are distinct this is the same as sorting then rendering.) -/
def dumps : JValue → String
  | .jnull => "null"
  | .jbool true => "true"
  | .jbool false => "false"
  | .jint n => toString n
  | .jnum raw => raw
  | .jstr s => jstrRender s
  | .jarr items =>
    "[" ++ String.intercalate "," (items.attach.map (fun x => dumps x.1)) ++ "]"
  | .jobj es =>
    let rendered := es.attach.map (fun e => (e.1.1, jstrRender e.1.1 ++ ":" ++ dumps e.1.2))
    String.mk [lbrace] ++ String.intercalate "," ((sortByKey rendered).map (·.2)) ++
      String.mk [rbrace]
decreasing_by
  · have h := List.sizeOf_lt_of_mem x.2
    simp only [JValue.jarr.sizeOf_spec]
    omega
  · have h := List.sizeOf_lt_of_mem e.2
    have h2 : sizeOf (e.1.2) < sizeOf e.1 := by
      obtain ⟨⟨k, v⟩, hm⟩ := e
      simp only [Prod.mk.sizeOf_spec]
      omega
    simp only [JValue.jobj.sizeOf_spec]
    omega

/-- Fuel-bounded recursive key-sorting of every object's members; at fuel
at least `sizeOf v` (as `canon` supplies) the fuel never runs out. -/
def canonF : Nat → JValue → JValue
  | 0, v => v
  | fuel + 1, v =>
    match v with
    | .jarr items => .jarr (items.map (canonF fuel))
    | .jobj es => .jobj (sortByKey (es.map (fun e => (e.1, canonF fuel e.2))))
    | x => x

/-- Two values are "the same up to object key order" when their recursively
key-sorted forms coincide; `canonF f v` at any fuel `f ≥ sizeOf v` computes
that form. -/
abbrev canonEq (f : Nat) (v1 v2 : JValue) : Prop :=
  canonF f v1 = canonF f v2

/-- Compact serialization that renders object members in the order given,
without sorting. -/
def dumpsPlain : JValue → String
  | .jnull => "null"
  | .jbool true => "true"
  | .jbool false => "false"
  | .jint n => toString n
  | .jnum raw => raw
  | .jstr s => jstrRender s
  | .jarr items =>
    "[" ++ String.intercalate "," (items.attach.map (fun x => dumpsPlain x.1)) ++ "]"
  | .jobj es =>
    String.mk [lbrace] ++
      String.intercalate "," (es.attach.map (fun e => jstrRender e.1.1 ++ ":" ++ dumpsPlain e.1.2)) ++
      String.mk [rbrace]
decreasing_by
  · have h := List.sizeOf_lt_of_mem x.2
    simp only [JValue.jarr.sizeOf_spec]
    omega
  · have h := List.sizeOf_lt_of_mem e.2
    have h2 : sizeOf (e.1.2) < sizeOf e.1 := by
      obtain ⟨⟨k, v⟩, hm⟩ := e
      simp only [Prod.mk.sizeOf_spec]
      omega
    simp only [JValue.jobj.sizeOf_spec]
    omega

/-! ## Byte-level decoders used by the hash module -/

/-- Is the byte a UTF-8 continuation byte? -/
def isCont (b : Nat) : Bool :=
  0x80 ≤ b && b ≤ 0xBF

/-- Valid range check for the first continuation byte after a 3-byte lead. -/
def valid3Cont1 (lead b : Nat) : Bool :=
  if lead = 0xE0 then 0xA0 ≤ b && b ≤ 0xBF
  else if lead = 0xED then 0x80 ≤ b && b ≤ 0x9F
  else isCont b

/-- Valid range check for the first continuation byte after a 4-byte lead. -/
def valid4Cont1 (lead b : Nat) : Bool :=
  if lead = 0xF0 then 0x90 ≤ b && b ≤ 0xBF
  else if lead = 0xF4 then 0x80 ≤ b && b ≤ 0x8F
  else isCont b

/-- Python `bytes.decode('utf-8', errors='ignore')`: decode UTF-8, skipping
the maximal invalid subpart at each error and dropping a truncated
sequence at the end of input. -/
def utf8DecodeIgnoreAux : Nat → List Nat → List Char
  | 0, _ => []
  | _, [] => []
  | fuel + 1, b :: rest =>
    if b < 0x80 then Char.ofNat b :: utf8DecodeIgnoreAux fuel rest
    else if 0xC2 ≤ b && b ≤ 0xDF then
      match rest with
      | [] => []
      | b2 :: r2 =>
        if isCont b2 then
          Char.ofNat ((b - 0xC0) * 0x40 + (b2 - 0x80)) :: utf8DecodeIgnoreAux fuel r2
        else utf8DecodeIgnoreAux fuel rest
    else if 0xE0 ≤ b && b ≤ 0xEF then
      match rest with
      | [] => []
      | b2 :: r2 =>
        if valid3Cont1 b b2 then
          match r2 with
          | [] => []
          | b3 :: r3 =>
            if isCont b3 then
              Char.ofNat ((b - 0xE0) * 0x1000 + (b2 - 0x80) * 0x40 + (b3 - 0x80)) ::
                utf8DecodeIgnoreAux fuel r3
            else utf8DecodeIgnoreAux fuel r2
        else utf8DecodeIgnoreAux fuel rest
    else if 0xF0 ≤ b && b ≤ 0xF4 then
      match rest with
      | [] => []
      | b2 :: r2 =>
        if valid4Cont1 b b2 then
          match r2 with
          | [] => []
          | b3 :: r3 =>
            if isCont b3 then
              match r3 with
              | [] => []
              | b4 :: r4 =>
                if isCont b4 then
                  Char.ofNat ((b - 0xF0) * 0x40000 + (b2 - 0x80) * 0x1000 +
                    (b3 - 0x80) * 0x40 + (b4 - 0x80)) :: utf8DecodeIgnoreAux fuel r4
                else utf8DecodeIgnoreAux fuel r3
            else utf8DecodeIgnoreAux fuel r2
        else utf8DecodeIgnoreAux fuel rest
    else utf8DecodeIgnoreAux fuel rest

/-- Python `bytes.decode('utf-8', errors='ignore')` as a `String`. -/
def utf8DecodeIgnore (data : List Nat) : String :=
  String.mk (utf8DecodeIgnoreAux data.length data)

/-- Error message of `bytes.fromhex` at a given position. -/
def fromhexMsg (pos : Nat) : String :=
  "non-hexadecimal number found in fromhex() arg at position " ++ toString pos

/-- Python `bytes.fromhex`: pairs of hex digits, spaces allowed between
pairs; fails at the first character that breaks a pair. -/
def fromhexAux : List Char → Nat → Except String (List Nat)
  | [], _ => .ok []
  | c :: cs, pos =>
    if c == ' ' then fromhexAux cs (pos + 1)
    else
      match hexVal c with
      | none => .error (fromhexMsg pos)
      | some hi =>
        match cs with
        | [] => .error (fromhexMsg (pos + 1))
        | c2 :: cs2 =>
          match hexVal c2 with
          | none => .error (fromhexMsg (pos + 1))
          | some lo => (fromhexAux cs2 (pos + 2)).map (fun bs => (hi * 16 + lo) :: bs)

/-- Python `bytes.fromhex` on a string. -/
def bytesFromHex (s : String) : Except String (List Nat) :=
  fromhexAux s.data 0

/-- The 6-bit value of a base64 alphabet character, if any. -/
def b64Val (c : Char) : Option Nat :=
  if 'A' ≤ c && c ≤ 'Z' then some (c.toNat - 65)
  else if 'a' ≤ c && c ≤ 'z' then some (c.toNat - 71)
  else if '0' ≤ c && c ≤ '9' then some (c.toNat + 4)
  else if c == '+' then some 62
  else if c == '/' then some 63
  else none

/-- Bytes encoded by a (possibly partial) quad of 6-bit values. -/
def b64Emit (quad : List Nat) : List Nat :=
  match quad with
  | [v0, v1] => [v0 * 4 + v1 / 16]
  | [v0, v1, v2] => [v0 * 4 + v1 / 16, v1 % 16 * 16 + v2 / 4]
  | [v0, v1, v2, v3] => [v0 * 4 + v1 / 16, v1 % 16 * 16 + v2 / 4, v2 % 4 * 64 + v3]
  | _ => []

/-- Core of CPython `binascii.a2b_base64` in non-strict mode: non-alphabet
characters are ignored, `=` counts as padding only in the second half of a
quad, a quad completed by padding ends the data, and leftover characters
at the end raise `Incorrect padding` (or the data-character count error
when one data character remains). -/
def b64core : List Char → List Nat → Nat → Nat → Except String (List Nat)
  | [], quad, pads, total =>
    if quad.length = 0 && pads = 0 then .ok []
    else if quad.length = 1 then
      .error ("Invalid base64-encoded string: number of data characters (" ++
        toString total ++ ") cannot be 1 more than a multiple of 4")
    else if quad.length + pads = 4 then .ok (b64Emit quad)
    else .error "Incorrect padding"
  | c :: cs, quad, pads, total =>
    if c == '=' then
      if quad.length ≤ 1 then b64core cs quad pads total
      else if quad.length + pads + 1 = 4 then .ok (b64Emit quad)
      else b64core cs quad (pads + 1) total
    else
      match b64Val c with
      | none => b64core cs quad pads total
      | some v =>
        if 0 < pads then b64core cs quad pads total
        else
          let quad2 := quad ++ [v]
          if quad2.length = 4 then
            (b64core cs [] 0 (total + 1)).map (fun bs => b64Emit quad2 ++ bs)
          else b64core cs quad2 0 (total + 1)

/-- Python `base64.b64decode(s)` (without validation). -/
def b64decode (s : String) : Except String (List Nat) :=
  b64core s.data [] 0 0

/-- The strict-mode structural checks of `base64.b64decode(s, validate=True)`:
only alphabet or padding characters, no leading padding, no data characters
once a padded quad has completed or after trailing padding, and no data
resuming inside a partially padded quad. -/
def b64StrictOk (s : List Char) : Bool :=
  go s 0 0 false false false
where
  /-- State: quad length, pads in the current quad, whether any data char was
  seen, whether a padded quad completed, whether a trailing pad was seen. -/
  go : List Char → Nat → Nat → Bool → Bool → Bool → Bool
  | [], _, _, _, _, _ => true
  | c :: cs, quadLen, pads, anyData, ended, trailPad =>
    if c == '=' then
      if ¬ anyData then false
      else if ended then false
      else if quadLen = 0 then go cs quadLen pads anyData ended true
      else if quadLen + pads + 1 = 4 then go cs 0 0 anyData true false
      else if 2 ≤ quadLen then go cs quadLen (pads + 1) anyData ended trailPad
      else go cs quadLen pads anyData ended trailPad
    else
      match b64Val c with
      | none => false
      | some _ =>
        if ended ∨ trailPad then false
        else if 0 < pads then false
        else go cs ((quadLen + 1) % 4) 0 true ended trailPad

/-- Python `base64.b64decode(s, validate=True)`: strict checks, then decode. -/
def b64decodeStrict (s : String) : Except String (List Nat) :=
  if b64StrictOk s.data then b64decode s else .error "invalid base64"

/-! ## Normalization functions (`normalize_json`, `normalize_text`, `normalize_data`) -/

/-- Python `json.dumps` serialization failures cannot occur here, so
`normalize_json` fails exactly when `json.loads` fails, raising
`ValueError("Invalid JSON data: ...")` (the embedding does not reproduce the
`JSONDecodeError` message text). -/
def normalize_json (data : String) : Except String (List Nat) :=
  match json_loads data with
  | some parsed => .ok (utf8Encode (dumps parsed))
  | none => .error "Invalid JSON data: Expecting value"

/-- The regex substitution `re.sub(r'\r\n|\r', '\n', ·)`: a `\r\n` pair
becomes one `\n`, a lone `\r` becomes `\n`, all other characters pass. -/
def subEOL : List Char → List Char
  | [] => []
  | [c] => [if c == '\r' then '\n' else c]
  | c1 :: c2 :: rest =>
    if c1 == '\r' && c2 == '\n' then '\n' :: subEOL rest
    else (if c1 == '\r' then '\n' else c1) :: subEOL (c2 :: rest)

/-- Render a run of `run` copies of `c`, replaced by `keep` copies when the
run reaches `minRun`. -/
def emitRun (c : Char) (keep minRun run : Nat) : List Char :=
  List.replicate (if minRun ≤ run then keep else run) c

/-- Worker for `collapseRun`: `run` counts the `c`-run read so far. -/
def collapseRunGo (c : Char) (keep minRun : Nat) : Nat → List Char → List Char
  | run, [] => emitRun c keep minRun run
  | run, x :: xs =>
    if x == c then collapseRunGo c keep minRun (run + 1) xs
    else emitRun c keep minRun run ++ x :: collapseRunGo c keep minRun 0 xs

/-- The regex substitution replacing every maximal run of `minRun` or more
copies of `c` by `keep` copies (leftmost-longest, as `re.sub` matches). -/
def collapseRun (c : Char) (keep minRun : Nat) (l : List Char) : List Char :=
  collapseRunGo c keep minRun 0 l

/-- Worker for `rle`: the current run has character `d` and count `n`. -/
def rleGo (d : Char) (n : Nat) : List Char → List (Char × Nat)
  | [] => [(d, n)]
  | x :: xs => if x == d then rleGo d (n + 1) xs else (d, n) :: rleGo x 1 xs

/-- Run-length encoding: the maximal runs of a character list. -/
def rle : List Char → List (Char × Nat)
  | [] => []
  | x :: xs => rleGo x 1 xs

/-- Expand a run-length encoding back into a character list. -/
def unrle (r : List (Char × Nat)) : List Char :=
  (r.map (fun p => List.replicate p.2 p.1)).flatten

/-- The run transformation of a collapse: a run of `minRun` or more copies
of `c` becomes `keep` copies, all other runs are unchanged. -/
def clampRun (c : Char) (keep minRun : Nat) (p : Char × Nat) : Char × Nat :=
  if p.1 = c ∧ minRun ≤ p.2 then (p.1, keep) else p

/-- The character pipeline of `normalize_text`: strip, normalize line
endings to `\n`, collapse runs of 3+ newlines to 2, collapse runs of 2+
spaces to 1. -/
def normalizeTextChars (l : List Char) : List Char :=
  collapseRun ' ' 1 2 (collapseRun '\n' 2 3 (subEOL (pyStripList l)))

/-- Python `normalize_text`: whitespace/line-ending normalization, then
UTF-8 encode. -/
def normalize_text (data : String) : List Nat :=
  utf8Encode (String.mk (normalizeTextChars data.data))

/-- The normalization selector enum. -/
inductive NormalizationType where
  | none
  | json
  | text
deriving Repr, DecidableEq

/-- Enum `.value` string. -/
def NormalizationType.value : NormalizationType → String
  | .none => "none"
  | .json => "json"
  | .text => "text"

/-- Python `normalize_data`: decode the bytes as UTF-8 with errors ignored,
then apply the selected normalization. -/
def normalize_data (data : List Nat) (normalization : NormalizationType) :
    Except String (List Nat) :=
  match normalization with
  | .none => .ok data
  | .json => normalize_json (utf8DecodeIgnore data)
  | .text => .ok (normalize_text (utf8DecodeIgnore data))

/-! ## Hash dispatch (`calculate_hash`) and input acquisition (`get_input_data`) -/

/-- The hash algorithm enum. -/
inductive HashAlgorithm where
  | md5
  | sha1
  | sha256
  | sha512
  | sha3_256
  | sha3_512
  | blake2b
  | crc32
deriving Repr, DecidableEq

/-- Enum `.value` string. -/
def HashAlgorithm.value : HashAlgorithm → String
  | .md5 => "md5"
  | .sha1 => "sha1"
  | .sha256 => "sha256"
  | .sha512 => "sha512"
  | .sha3_256 => "sha3_256"
  | .sha3_512 => "sha3_512"
  | .blake2b => "blake2b"
  | .crc32 => "crc32"

/-- The input type enum. -/
inductive InputType where
  | text
  | file
  | base64
  | hex
deriving Repr, DecidableEq

/-- Enum `.value` string. -/
def InputType.value : InputType → String
  | .text => "text"
  | .file => "file"
  | .base64 => "base64"
  | .hex => "hex"

/-- The response format enum. -/
inductive ResponseFormat where
  | markdown
  | json
deriving Repr, DecidableEq

/-- Python `calculate_hash(data, algorithm)`: dispatch to the algorithm and
render the digest.  The `else` branch raising `Unsupported algorithm` is
unreachable over the closed enum. -/
def calculate_hash (data : List Nat) (algorithm : HashAlgorithm) : String :=
  match algorithm with
  | .md5 => bytesToHex (md5Bytes data)
  | .sha1 => bytesToHex (sha1Bytes data)
  | .sha256 => bytesToHex (sha256Bytes data)
  | .sha512 => bytesToHex (sha512Bytes data)
  | .sha3_256 => bytesToHex (sha3_256Bytes data)
  | .sha3_512 => bytesToHex (sha3_512Bytes data)
  | .blake2b => bytesToHex (blake2bBytes data)
  | .crc32 => hexPad 8 (crc32 data &&& 0xffffffff)

/-- The hex-digit count of each algorithm's rendered digest. -/
def hexLen : HashAlgorithm → Nat
  | .md5 => 32
  | .sha1 => 40
  | .sha256 => 64
  | .sha512 => 128
  | .sha3_256 => 64
  | .sha3_512 => 128
  | .blake2b => 128
  | .crc32 => 8

/-- The file system visible to the module: a map from paths to byte
contents (single-threaded, unchanging during a call). -/
def FileSystem : Type :=
  List (String × List Nat)

/-- Look up a path. -/
def FileSystem.read (fs : FileSystem) (path : String) : Option (List Nat) :=
  (fs.find? (fun e => e.1 == path)).map (·.2)

/-- Python `os.path.getsize` for a path known to exist. -/
def FileSystem.getsize (fs : FileSystem) (path : String) : Nat :=
  ((fs.read path).getD []).length

/-- The `str(FileNotFoundError)` message raised by `open` on a missing path. -/
def fileErrMsg (path : String) : String :=
  "[Errno 2] No such file or directory: " ++
    String.mk [Char.ofNat 39] ++ path ++ String.mk [Char.ofNat 39]

/-- Python `get_input_data(input_type, input_data)`: obtain the raw bytes;
`open` on a missing file raises `FileNotFoundError`. -/
def get_input_data (fs : FileSystem) (input_type : InputType) (input_data : String) :
    Except String (List Nat) :=
  match input_type with
  | .text => .ok (utf8Encode input_data)
  | .file =>
    match fs.read input_data with
    | some content => .ok content
    | none => .error (fileErrMsg input_data)
  | .base64 => b64decode input_data
  | .hex => bytesFromHex input_data

/-! ## Input models (`HashCalculationInput`, `HashComparisonInput`)

Pydantic's `str_strip_whitespace=True` strips every string field before the
field validators run; a validly constructed model is one for which the
constructor below returns `.ok`.  (`os.path.exists`/`os.path.isfile` are
modelled as presence in the `FileSystem` map; directories are not
modelled.) -/

structure HashCalculationInput where
  algorithm : HashAlgorithm
  input_type : InputType
  input_data : String
  normalization : NormalizationType
  response_format : ResponseFormat

/-- Is the character an ASCII hex digit (the class `[0-9a-fA-F]`)? -/
def isHexDigitChar (c : Char) : Bool :=
  ('0' ≤ c && c ≤ '9') || ('a' ≤ c && c ≤ 'f') || ('A' ≤ c && c ≤ 'F')

/-- The `validate_input_data` field validator, applied to the (already
stripped) `input_data` with the already-validated `input_type` in scope. -/
def validate_input_data (fs : FileSystem) (input_type : InputType) (v : String) :
    Except String String :=
  match input_type with
  | .file =>
    match fs.read v with
    | some _ => .ok v
    | none => .error ("File not found: " ++ v)
  | .base64 =>
    match b64decodeStrict v with
    | .ok _ => .ok v
    | .error _ => .error "Invalid base64 encoded data"
  | .hex =>
    if v.data ≠ [] ∧ v.data.all isHexDigitChar then .ok v
    else .error "Invalid hex encoded data"
  | .text => .ok v

/-- Construct a `HashCalculationInput` as pydantic does: strip the string
field, then run the field validator. -/
def mkHashCalculationInput (fs : FileSystem) (algorithm : HashAlgorithm)
    (input_type : InputType) (input_data : String)
    (normalization : NormalizationType) (response_format : ResponseFormat) :
    Except String HashCalculationInput :=
  (validate_input_data fs input_type (pyStrip input_data)).map
    (fun v => ⟨algorithm, input_type, v, normalization, response_format⟩)

structure HashComparisonInput where
  algorithm : HashAlgorithm
  input_type : InputType
  input_data : String
  expected_hash : String
  normalization : NormalizationType
  response_format : ResponseFormat

/-- Python `str.lower()` (ASCII; characters outside `[A-Z]` that Python
would also lower-case are rejected by the hex pattern either way). -/
def pyLower (s : String) : String :=
  String.mk (s.data.map Char.toLower)

/-- Is the character a lowercase hex digit (the class `[0-9a-f]`)? -/
def isLowerHexChar (c : Char) : Bool :=
  ('0' ≤ c && c ≤ '9') || ('a' ≤ c && c ≤ 'f')

/-- The `validate_expected_hash` field validator: strip, lower-case, and
require a non-empty string of lowercase hex digits. -/
def validate_expected_hash (v : String) : Except String String :=
  let v2 := pyLower (pyStrip v)
  if v2.data ≠ [] ∧ v2.data.all isLowerHexChar then .ok v2
  else .error "Expected hash must be a hexadecimal string"

/-- Construct a `HashComparisonInput` as pydantic does.  `input_data` is
stripped but (unlike in `HashCalculationInput`) has no validator. -/
def mkHashComparisonInput (algorithm : HashAlgorithm) (input_type : InputType)
    (input_data expected_hash : String) (normalization : NormalizationType)
    (response_format : ResponseFormat) : Except String HashComparisonInput :=
  (validate_expected_hash (pyStrip expected_hash)).map
    (fun eh => ⟨algorithm, input_type, pyStrip input_data, eh, normalization,
      response_format⟩)

/-! ## Result formatting (`_format_result_markdown`, `_format_result_json`)

The values that reach the formatters in this module are strings, ints,
bools, lists of dicts, and dicts; they are modelled by `PyVal` (no float
ever reaches the formatter here, so the `{value:.6f}` branch is not
represented). -/

inductive PyVal where
  | vstr (s : String)
  | vint (n : Nat)
  | vbool (b : Bool)
  | vlist (l : List PyVal)
  | vdict (l : List (String × PyVal))
deriving Repr

/-- The single-quote character. -/
def squote : Char := Char.ofNat 39

/-- Python `repr` of a string (simplified: always single-quoted, escaping
backslash, the quote, and the common control characters — exact for the
quote-free ASCII strings this module produces). -/
def pyReprStr (s : String) : String :=
  String.mk ([squote] ++ (s.data.map (fun c =>
    if c == bslash then [bslash, bslash]
    else if c == squote then [bslash, squote]
    else if c == '\n' then [bslash, 'n']
    else if c == '\r' then [bslash, 'r']
    else if c == '\t' then [bslash, 't']
    else [c])).flatten ++ [squote])

/-- Python `repr` of a value. -/
def pyRepr : PyVal → String
  | .vstr s => pyReprStr s
  | .vint n => toString n
  | .vbool true => "True"
  | .vbool false => "False"
  | .vlist l => "[" ++ String.intercalate ", " (l.attach.map (fun x => pyRepr x.1)) ++ "]"
  | .vdict l =>
    String.mk [lbrace] ++
      String.intercalate ", " (l.attach.map (fun e => pyReprStr e.1.1 ++ ": " ++ pyRepr e.1.2)) ++
      String.mk [rbrace]
decreasing_by
  · have h := List.sizeOf_lt_of_mem x.2
    simp only [PyVal.vlist.sizeOf_spec]
    omega
  · have h := List.sizeOf_lt_of_mem e.2
    have h2 : sizeOf (e.1.2) < sizeOf e.1 := by
      obtain ⟨⟨k, v⟩, hm⟩ := e
      simp only [Prod.mk.sizeOf_spec]
      omega
    simp only [PyVal.vdict.sizeOf_spec]
    omega

/-- Python `str` of a value (used by the markdown formatter's f-strings). -/
def pyStr : PyVal → String
  | .vstr s => s
  | .vint n => toString n
  | .vbool true => "True"
  | .vbool false => "False"
  | .vlist l => pyRepr (.vlist l)
  | .vdict l => pyRepr (.vdict l)

/-- Python `str.title()` on the ASCII keys used here: upper-case a letter
that follows a non-letter, lower-case one that follows a letter. -/
def pyTitleGo : Bool → List Char → List Char
  | _, [] => []
  | prevAlpha, c :: cs =>
    (if c.isAlpha then (if prevAlpha then c.toLower else c.toUpper) else c) ::
      pyTitleGo c.isAlpha cs

/-- The key humanization `key.replace('_', ' ').title()`. -/
def humanizeKey (k : String) : String :=
  String.mk (pyTitleGo false (k.data.map (fun c => if c == '_' then ' ' else c)))

/-- The markdown lines produced for one details entry. -/
def mdDetailLines (e : String × PyVal) : List String :=
  match e.2 with
  | .vlist items =>
    ("- **" ++ humanizeKey e.1 ++ "**:") :: items.map (fun it => "  - " ++ pyStr it)
  | .vdict entries =>
    ("- **" ++ humanizeKey e.1 ++ "**:") ::
      entries.map (fun kv => "  - **" ++ kv.1 ++ "**: " ++ pyStr kv.2)
  | v => ["- **" ++ humanizeKey e.1 ++ "**: " ++ pyStr v]

/-- Python `_format_result_markdown`. -/
def _format_result_markdown (operation : String) (result : PyVal)
    (details : List (String × PyVal)) : String :=
  let lines := ["# " ++ operation, ""]
    ++ (if details.isEmpty then [] else (details.map mdDetailLines).flatten ++ [""])
    ++ (match result with
        | .vdict entries =>
          "## Results:" :: entries.map (fun kv => "- **" ++ kv.1 ++ "**: " ++ pyStr kv.2)
        | r => ["## Result: **" ++ pyStr r ++ "**"])
  String.intercalate "\n" lines

/-- Indentation of `n` spaces. -/
def indentStr (n : Nat) : String :=
  String.mk (List.replicate n ' ')

/-- Python `json.dumps(v, indent=2)` on the formatter's response record
(insertion-ordered keys, `": "` item separator, two-space indentation). -/
def pyValJson (level : Nat) : PyVal → String
  | .vstr s => jstrRender s
  | .vint n => toString n
  | .vbool true => "true"
  | .vbool false => "false"
  | .vlist [] => "[]"
  | .vlist l =>
    "[\n" ++
      String.intercalate ",\n"
        (l.attach.map (fun x => indentStr (level + 2) ++ pyValJson (level + 2) x.1)) ++
      "\n" ++ indentStr level ++ "]"
  | .vdict [] => String.mk [lbrace, rbrace]
  | .vdict l =>
    String.mk [lbrace] ++ "\n" ++
      String.intercalate ",\n"
        (l.attach.map (fun e =>
          indentStr (level + 2) ++ jstrRender e.1.1 ++ ": " ++ pyValJson (level + 2) e.1.2)) ++
      "\n" ++ indentStr level ++ String.mk [rbrace]
termination_by v => sizeOf v
decreasing_by
  · have h := List.sizeOf_lt_of_mem x.2
    simp only [PyVal.vlist.sizeOf_spec]
    omega
  · have h := List.sizeOf_lt_of_mem e.2
    have h2 : sizeOf (e.1.2) < sizeOf e.1 := by
      obtain ⟨⟨k, v⟩, hm⟩ := e
      simp only [Prod.mk.sizeOf_spec]
      omega
    simp only [PyVal.vdict.sizeOf_spec]
    omega

/-- Python `_format_result_json`. -/
def _format_result_json (operation : String) (result : PyVal)
    (details : List (String × PyVal)) : String :=
  pyValJson 0 (.vdict [("operation", .vstr operation), ("result", result),
    ("details", .vdict details)])

/-! ## Tool wrappers (`calculate_hash_wrapper`, `compare_hash_wrapper`,
`batch_hash_calculation`)

Each wrapper body is a `try` block; the embedding names the body `..._core`
(returning `Except`) and the wrapper converts an error `e` into the string
`"Error: " ++ e`, exactly as `except Exception as e: return f"Error: {str(e)}"`
does. -/

/-- The `try` body of `calculate_hash_wrapper`: obtain bytes, normalize,
hash, and build the details record (in the code's insertion order). -/
def calculate_hash_core (fs : FileSystem) (p : HashCalculationInput) :
    Except String (String × List (String × PyVal)) := do
  let data ← get_input_data fs p.input_type p.input_data
  let normalized_data ← normalize_data data p.normalization
  let hash_value := calculate_hash normalized_data p.algorithm
  let details := [("algorithm", PyVal.vstr p.algorithm.value),
    ("input_type", PyVal.vstr p.input_type.value),
    ("normalization", PyVal.vstr p.normalization.value),
    ("input_size_bytes", PyVal.vint data.length),
    ("normalized_size_bytes", PyVal.vint
      (if p.normalization ≠ NormalizationType.none then normalized_data.length
       else data.length))]
    ++ (if p.input_type = InputType.file then
          [("file_path", PyVal.vstr p.input_data),
           ("file_size", PyVal.vint (fs.getsize p.input_data))]
        else [])
  pure (hash_value, details)

/-- Python `calculate_hash_wrapper`. -/
def calculate_hash_wrapper (fs : FileSystem) (p : HashCalculationInput) : String :=
  match calculate_hash_core fs p with
  | .ok (hash_value, details) =>
    if p.response_format = ResponseFormat.markdown then
      _format_result_markdown ("Hash Calculation: " ++ p.algorithm.value)
        (PyVal.vstr hash_value) details
    else
      _format_result_json ("Hash Calculation: " ++ p.algorithm.value)
        (PyVal.vstr hash_value) details
  | .error e => "Error: " ++ e

/-- The `try` body of `compare_hash_wrapper`: compute the digest, compare it
case-insensitively with the expected hash, and build the details record. -/
def compare_hash_core (fs : FileSystem) (p : HashComparisonInput) :
    Except String (Bool × String × List (String × PyVal)) := do
  let data ← get_input_data fs p.input_type p.input_data
  let normalized_data ← normalize_data data p.normalization
  let calculated_hash := calculate_hash normalized_data p.algorithm
  let isMatch := pyLower calculated_hash == pyLower p.expected_hash
  let details := [("algorithm", PyVal.vstr p.algorithm.value),
    ("input_type", PyVal.vstr p.input_type.value),
    ("normalization", PyVal.vstr p.normalization.value),
    ("calculated_hash", PyVal.vstr calculated_hash),
    ("expected_hash", PyVal.vstr p.expected_hash),
    ("match", PyVal.vbool isMatch),
    ("input_size_bytes", PyVal.vint data.length),
    ("normalized_size_bytes", PyVal.vint
      (if p.normalization ≠ NormalizationType.none then normalized_data.length
       else data.length))]
    ++ (if p.input_type = InputType.file then
          [("file_path", PyVal.vstr p.input_data),
           ("file_size", PyVal.vint (fs.getsize p.input_data))]
        else [])
  pure (isMatch, calculated_hash, details)

/-- The result record of `compare_hash_wrapper`. -/
def compareResult (isMatch : Bool) (calculated_hash expected_hash : String) :
    List (String × PyVal) :=
  [("match", PyVal.vbool isMatch),
   ("calculated_hash", PyVal.vstr calculated_hash),
   ("expected_hash", PyVal.vstr expected_hash)]

/-- Python `compare_hash_wrapper`. -/
def compare_hash_wrapper (fs : FileSystem) (p : HashComparisonInput) : String :=
  match compare_hash_core fs p with
  | .ok (isMatch, calculated_hash, details) =>
    let result := PyVal.vdict (compareResult isMatch calculated_hash p.expected_hash)
    if p.response_format = ResponseFormat.markdown then
      let operation := "Hash Comparison: " ++ p.algorithm.value ++
        (if isMatch then " ✓ MATCH" else " ✗ MISMATCH")
      _format_result_markdown operation result details
    else
      _format_result_json ("Hash Comparison: " ++ p.algorithm.value) result details
  | .error e => "Error: " ++ e

/-- One iteration of the loop inside `batch_hash_calculation`: the result
entry and the details entry for one input. -/
def batch_item (fs : FileSystem) (algorithm : HashAlgorithm) (input_type : InputType)
    (normalization : NormalizationType) (input_data : String) :
    Except String (List (String × PyVal) × List (String × PyVal)) := do
  let data ← get_input_data fs input_type input_data
  let normalized_data ← normalize_data data normalization
  let hash_value := calculate_hash normalized_data algorithm
  let result_entry := [("input", PyVal.vstr input_data), ("hash", PyVal.vstr hash_value)]
    ++ (if input_type = InputType.file then
          [("file_size", PyVal.vint (fs.getsize input_data))]
        else [])
  let details_entry := [("input", PyVal.vstr input_data),
    ("algorithm", PyVal.vstr algorithm.value),
    ("normalization", PyVal.vstr normalization.value),
    ("input_size_bytes", PyVal.vint data.length),
    ("normalized_size_bytes", PyVal.vint
      (if normalization ≠ NormalizationType.none then normalized_data.length
       else data.length))]
    ++ (if input_type = InputType.file then
          [("file_path", PyVal.vstr input_data),
           ("file_size", PyVal.vint (fs.getsize input_data))]
        else [])
  pure (result_entry, details_entry)

/-- The success branch of `batch_hash_calculation`: format the collected
result entries and the aggregate details. -/
def batch_render (algorithm : HashAlgorithm) (input_type : InputType)
    (normalization : NormalizationType) (response_format : ResponseFormat)
    (input_list : List String)
    (pairs : List (List (String × PyVal) × List (String × PyVal))) : String :=
  let results := PyVal.vlist (pairs.map (fun pr => PyVal.vdict pr.1))
  let overall_details := [("algorithm", PyVal.vstr algorithm.value),
    ("input_type", PyVal.vstr input_type.value),
    ("normalization", PyVal.vstr normalization.value),
    ("total_inputs", PyVal.vint input_list.length),
    ("inputs", PyVal.vlist (pairs.map (fun pr => PyVal.vdict pr.2)))]
  if response_format = ResponseFormat.markdown then
    _format_result_markdown ("Batch Hash Calculation: " ++ algorithm.value)
      results overall_details
  else
    _format_result_json ("Batch Hash Calculation: " ++ algorithm.value)
      results overall_details

/-- Python `batch_hash_calculation`: the whole loop runs inside one `try`,
so the items are processed left to right and the first failure aborts the
entire batch with a single error string. -/
def batch_hash_calculation (fs : FileSystem) (algorithm : HashAlgorithm)
    (input_type : InputType) (input_list : List String)
    (normalization : NormalizationType) (response_format : ResponseFormat) : String :=
  match input_list.mapM (batch_item fs algorithm input_type normalization) with
  | .ok pairs => batch_render algorithm input_type normalization response_format input_list pairs
  | .error e => "Error: " ++ e

/-! ## Supporting lemmas -/

/-- `List.mapM` over `Except` succeeds when every element succeeds, returning
the element results in order. -/
theorem mapM_ok_of_forall_ok {α β : Type} (f : α → Except String β) :
    ∀ l : List α, (∀ x ∈ l, ∃ y, f x = .ok y) →
      ∃ ys, l.mapM f = .ok ys ∧ ys.length = l.length ∧
        ∀ i, (hi : i < l.length) → (hy : i < ys.length) →
          f (l.get ⟨i, hi⟩) = .ok (ys.get ⟨i, hy⟩) := by
  intro l
  induction l with
  | nil =>
    intro _
    exact ⟨[], rfl, rfl, fun i hi => by simp at hi⟩
  | cons x xs ih =>
    intro h
    obtain ⟨y, hy⟩ := h x (by simp)
    obtain ⟨ys, hys, hlen, hget⟩ := ih (fun z hz => h z (by simp [hz]))
    refine ⟨y :: ys, ?_, by simp [hlen], ?_⟩
    · rw [List.mapM_cons, hy, hys]
      rfl
    · intro i hi hyi
      match i with
      | 0 => simpa using hy
      | j + 1 => simpa using hget j (by simpa using hi) (by simpa using hyi)

/-- `List.mapM` over `Except` fails with the first element failure. -/
theorem mapM_error_of_first_error {α β : Type} (f : α → Except String β) (e : String) :
    ∀ (l1 : List α) (x : α) (l2 : List α),
      (∀ z ∈ l1, ∃ y, f z = .ok y) → f x = .error e →
      (l1 ++ x :: l2).mapM f = .error e := by
  intro l1
  induction l1 with
  | nil =>
    intro x l2 _ hx
    rw [List.nil_append, List.mapM_cons, hx]
    rfl
  | cons z zs ih =>
    intro x l2 h hx
    obtain ⟨y, hy⟩ := h z (by simp)
    rw [List.cons_append, List.mapM_cons, hy,
      ih x l2 (fun w hw => h w (by simp [hw])) hx]
    rfl

/-! ## Claim theorems -/

/-- C10: `normalize_data` decodes its input bytes by UTF-8 with errors
ignored; normalization of kind `text` never fails, and normalization of kind
`json` fails exactly when the lossily decoded string does not parse as JSON,
never because the bytes are invalid UTF-8. -/
theorem normalize_data_total_on_text (data : List Nat) :
    normalize_data data NormalizationType.text =
      .ok (normalize_text (utf8DecodeIgnore data)) ∧
    (normalize_data data NormalizationType.json).isOk =
      (json_loads (utf8DecodeIgnore data)).isSome := by
  refine ⟨rfl, ?_⟩
  simp only [normalize_data, normalize_json]
  cases json_loads (utf8DecodeIgnore data) <;> rfl

set_option maxRecDepth 1000000 in
/-- C7: `calculate_hash_wrapper` is deterministic — two invocations with
equal parameters return the identical string — and hashing the text
`"Hello, World!"` with sha256 yields the fixed well-known digest. -/
theorem calculate_hash_wrapper_deterministic :
    (∀ (fs : FileSystem) (p1 p2 : HashCalculationInput), p1 = p2 →
       calculate_hash_wrapper fs p1 = calculate_hash_wrapper fs p2) ∧
    calculate_hash (utf8Encode "Hello, World!") HashAlgorithm.sha256 =
      "dffd6021bb2bd5b0af676290809ec3a53191dd81c7f70a4b28688a362182986f" := by
  constructor
  · intro fs p1 p2 h
    rw [h]
  · decide

/-- Witness for C7 at a concrete input. -/
theorem calculate_hash_wrapper_deterministic_witness :
    calculate_hash_wrapper []
        ⟨HashAlgorithm.sha256, InputType.text, "Hello, World!",
          NormalizationType.none, ResponseFormat.markdown⟩ =
      calculate_hash_wrapper []
        ⟨HashAlgorithm.sha256, InputType.text, "Hello, World!",
          NormalizationType.none, ResponseFormat.markdown⟩ :=
  calculate_hash_wrapper_deterministic.1 [] _ _ rfl

set_option maxRecDepth 1000000 in
/-- C1, counterexample: in a file-typed batch over `["missing.txt", "a.txt"]`
where only `a.txt` exists, the missing first item does not produce a per-item
error entry — the whole batch aborts and returns a single error string, with
no result entry for `a.txt` either. -/
theorem batch_missing_file_aborts :
    batch_hash_calculation [("a.txt", [104, 105])] HashAlgorithm.md5 InputType.file
      ["missing.txt", "a.txt"] NormalizationType.none ResponseFormat.markdown =
      "Error: " ++ fileErrMsg "missing.txt" := by
  decide

/-- C1 (amended): when every item of the batch processes successfully,
`batch_hash_calculation` collects exactly one result per input, in input
order, each produced by `batch_item` on that input, and renders them; an
error on any single item aborts the whole batch, which returns a single
`"Error: ..."` string instead. -/
theorem batch_hash_order_and_abort (fs : FileSystem) (algorithm : HashAlgorithm)
    (input_type : InputType) (normalization : NormalizationType)
    (response_format : ResponseFormat) :
    (∀ input_list : List String,
      (∀ x ∈ input_list, ∃ r, batch_item fs algorithm input_type normalization x = .ok r) →
      ∃ pairs, input_list.mapM (batch_item fs algorithm input_type normalization) = .ok pairs ∧
        pairs.length = input_list.length ∧
        (∀ i, (hi : i < input_list.length) → (hp : i < pairs.length) →
          batch_item fs algorithm input_type normalization (input_list.get ⟨i, hi⟩) =
            .ok (pairs.get ⟨i, hp⟩)) ∧
        batch_hash_calculation fs algorithm input_type input_list normalization
            response_format =
          batch_render algorithm input_type normalization response_format input_list pairs) ∧
    (∀ (l1 l2 : List String) (x e : String),
      (∀ z ∈ l1, ∃ r, batch_item fs algorithm input_type normalization z = .ok r) →
      batch_item fs algorithm input_type normalization x = .error e →
      batch_hash_calculation fs algorithm input_type (l1 ++ x :: l2) normalization
          response_format = "Error: " ++ e) := by
  constructor
  · intro input_list h
    obtain ⟨pairs, hok, hlen, hget⟩ :=
      mapM_ok_of_forall_ok (batch_item fs algorithm input_type normalization) input_list h
    exact ⟨pairs, hok, hlen, hget, by rw [batch_hash_calculation, hok]⟩
  · intro l1 l2 x e h hx
    rw [batch_hash_calculation,
      mapM_error_of_first_error (batch_item fs algorithm input_type normalization) e l1 x l2 h hx]

set_option maxRecDepth 1000000 in
/-- Witness for C1 (amended) at a concrete two-element text batch. -/
theorem batch_hash_order_and_abort_witness :
    ∃ pairs, (["abc", "def"] : List String).mapM
        (batch_item [] HashAlgorithm.md5 InputType.text NormalizationType.none) = .ok pairs ∧
      pairs.length = 2 := by
  obtain ⟨pairs, hok, hlen, -, -⟩ :=
    (batch_hash_order_and_abort [] HashAlgorithm.md5 InputType.text NormalizationType.none
      ResponseFormat.markdown).1 ["abc", "def"]
      (by
        intro x hx
        fin_cases hx
        · exact ⟨_, rfl⟩
        · exact ⟨_, rfl⟩)
  exact ⟨pairs, hok, by rw [hlen]; rfl⟩

/-- A hex digit has a `hexVal`. -/
theorem hexVal_isSome_of_hex (c : Char) (h : isHexDigitChar c = true) :
    (hexVal c).isSome = true := by
  unfold hexVal
  split
  · rfl
  · split
    · rfl
    · split
      · rfl
      · simp_all [isHexDigitChar]

/-- A hex digit is not the space character. -/
theorem hex_not_space (c : Char) (h : isHexDigitChar c = true) : (c == ' ') = false := by
  by_contra hc
  simp only [Bool.not_eq_false, beq_iff_eq] at hc
  subst hc
  simp [isHexDigitChar] at h

/-- A Python whitespace character is not a hex digit. -/
theorem ws_not_hex (c : Char) (h : isPyWhitespace c = true) : isHexDigitChar c = false := by
  simp only [isPyWhitespace, Bool.or_eq_true, Bool.and_eq_true, decide_eq_true_eq,
    beq_iff_eq] at h
  have hn : c.toNat ≤ 32 ∨ 133 ≤ c.toNat := by omega
  have d0 : (decide (('0' : Char) ≤ c) && decide (c ≤ ('9' : Char))) = false := by
    rcases hn with hn | hn
    · rw [decide_eq_false (fun hle : ('0' : Char) ≤ c =>
        absurd (show 48 ≤ c.toNat from hle) (by omega))]
      rw [Bool.false_and]
    · rw [decide_eq_false (fun hle : c ≤ ('9' : Char) =>
        absurd (show c.toNat ≤ 57 from hle) (by omega))]
      rw [Bool.and_false]
  have d1 : (decide (('a' : Char) ≤ c) && decide (c ≤ ('f' : Char))) = false := by
    rcases hn with hn | hn
    · rw [decide_eq_false (fun hle : ('a' : Char) ≤ c =>
        absurd (show 97 ≤ c.toNat from hle) (by omega))]
      rw [Bool.false_and]
    · rw [decide_eq_false (fun hle : c ≤ ('f' : Char) =>
        absurd (show c.toNat ≤ 102 from hle) (by omega))]
      rw [Bool.and_false]
  have d2 : (decide (('A' : Char) ≤ c) && decide (c ≤ ('F' : Char))) = false := by
    rcases hn with hn | hn
    · rw [decide_eq_false (fun hle : ('A' : Char) ≤ c =>
        absurd (show 65 ≤ c.toNat from hle) (by omega))]
      rw [Bool.false_and]
    · rw [decide_eq_false (fun hle : c ≤ ('F' : Char) =>
        absurd (show c.toNat ≤ 70 from hle) (by omega))]
      rw [Bool.and_false]
  unfold isHexDigitChar
  rw [d0, d1, d2]
  rfl

/-- A hex digit is not Python whitespace. -/
theorem hex_not_whitespace (c : Char) (h : isHexDigitChar c = true) :
    isPyWhitespace c = false := by
  cases hw : isPyWhitespace c
  · rfl
  · rw [ws_not_hex c hw] at h
    exact absurd h (by simp)

/-- Stripping is the identity on a string with no whitespace characters. -/
theorem pyStripList_eq_self (l : List Char) (h : ∀ c ∈ l, isPyWhitespace c = false) :
    pyStripList l = l := by
  have h1 : List.dropWhile isPyWhitespace l = l :=
    List.dropWhile_eq_self_iff.mpr (fun hne => by simp [h _ (List.getElem_mem hne)])
  have h2 : List.dropWhile isPyWhitespace l.reverse = l.reverse :=
    List.dropWhile_eq_self_iff.mpr (fun hne => by
      have hlen : l.length - 1 < l.length := by
        rw [List.length_reverse] at hne
        omega
      simpa using h _ (List.getElem_mem hlen))
  unfold pyStripList
  rw [h1, h2, List.reverse_reverse]

/-- `bytes.fromhex` on all-hex input: fails at the final position when the
digit count is odd, succeeds when it is even. -/
theorem fromhex_allhex : ∀ (n : Nat) (l : List Char) (pos : Nat), l.length ≤ n →
    l.all isHexDigitChar = true →
    (l.length % 2 = 1 → fromhexAux l pos = .error (fromhexMsg (pos + l.length))) ∧
    (l.length % 2 = 0 → ∃ bs, fromhexAux l pos = .ok bs) := by
  intro n
  induction n with
  | zero =>
    intro l pos hl _
    rw [List.length_eq_zero.mp (Nat.le_zero.mp hl)]
    exact ⟨fun h => by simp at h, fun _ => ⟨[], rfl⟩⟩
  | succ n ih =>
    intro l pos hl hall
    match l with
    | [] => exact ⟨fun h => by simp at h, fun _ => ⟨[], rfl⟩⟩
    | [c] =>
      have hc : isHexDigitChar c = true := by simpa using hall
      obtain ⟨k, hk⟩ := Option.isSome_iff_exists.mp (hexVal_isSome_of_hex c hc)
      refine ⟨fun _ => ?_, fun h => by simp at h⟩
      unfold fromhexAux
      rw [hex_not_space c hc]
      simp [hk]
    | c1 :: c2 :: rest =>
      have hc1 : isHexDigitChar c1 = true := by
        have := List.all_eq_true.mp hall c1 (by simp)
        simpa using this
      have hc2 : isHexDigitChar c2 = true := by
        have := List.all_eq_true.mp hall c2 (by simp)
        simpa using this
      have hrest : rest.all isHexDigitChar = true := by
        rw [List.all_eq_true] at hall ⊢
        exact fun x hx => hall x (by simp [hx])
      obtain ⟨k1, hk1⟩ := Option.isSome_iff_exists.mp (hexVal_isSome_of_hex c1 hc1)
      obtain ⟨k2, hk2⟩ := Option.isSome_iff_exists.mp (hexVal_isSome_of_hex c2 hc2)
      have hlen : rest.length ≤ n := by
        simp only [List.length_cons] at hl
        omega
      obtain ⟨ihodd, iheven⟩ := ih rest (pos + 2) hlen hrest
      constructor
      · intro hodd
        have hro : rest.length % 2 = 1 := by
          simp only [List.length_cons] at hodd
          omega
        have harith : pos + 2 + rest.length = pos + (c1 :: c2 :: rest).length := by
          simp only [List.length_cons]
          omega
        simp [fromhexAux, hex_not_space c1 hc1, hk1, hk2, ihodd hro, harith, Except.map]
      · intro heven
        have hre : rest.length % 2 = 0 := by
          simp only [List.length_cons] at heven
          omega
        obtain ⟨bs, hbs⟩ := iheven hre
        refine ⟨(k1 * 16 + k2) :: bs, ?_⟩
        simp [fromhexAux, hex_not_space c1 hc1, hk1, hk2, hbs, Except.map]

/-- C9: passing input validation does not guarantee a digest — any
odd-length string of hex digits is accepted by `validate_input_data`'s
pattern, yet `bytes.fromhex` fails on it inside `get_input_data`, so
`calculate_hash_wrapper` returns an `"Error: ..."` string instead of a
hash. -/
theorem hex_validation_does_not_guarantee_digest (fs : FileSystem)
    (alg : HashAlgorithm) (norm : NormalizationType) (rf : ResponseFormat)
    (v : String) (hne : v.data ≠ []) (hhex : v.data.all isHexDigitChar = true)
    (hodd : v.data.length % 2 = 1) :
    mkHashCalculationInput fs alg InputType.hex v norm rf =
      .ok ⟨alg, InputType.hex, v, norm, rf⟩ ∧
    calculate_hash_wrapper fs ⟨alg, InputType.hex, v, norm, rf⟩ =
      "Error: " ++ fromhexMsg v.data.length := by
  have hstrip : pyStrip v = v := by
    show String.mk (pyStripList v.data) = v
    rw [pyStripList_eq_self v.data
      (fun c hc => hex_not_whitespace c (List.all_eq_true.mp hhex c hc))]
  have herr : bytesFromHex v = .error (fromhexMsg v.data.length) := by
    have := ((fromhex_allhex v.data.length v.data 0 le_rfl hhex).1 hodd)
    rw [bytesFromHex, this, Nat.zero_add]
  constructor
  · rw [mkHashCalculationInput, hstrip]
    simp [validate_input_data, hne, hhex, Except.map]
  · rw [calculate_hash_wrapper]
    have hcore : calculate_hash_core fs ⟨alg, InputType.hex, v, norm, rf⟩ =
        .error (fromhexMsg v.data.length) := by
      rw [calculate_hash_core]
      simp only [get_input_data, herr]
      rfl
    rw [hcore]

/-- Witness for C9 at the concrete hex input "abc". -/
theorem hex_validation_does_not_guarantee_digest_witness :
    ("abc".data ≠ [] ∧ "abc".data.all isHexDigitChar = true ∧
      "abc".data.length % 2 = 1) ∧
    mkHashCalculationInput [] HashAlgorithm.md5 InputType.hex "abc"
        NormalizationType.none ResponseFormat.markdown =
      .ok ⟨HashAlgorithm.md5, InputType.hex, "abc", NormalizationType.none,
        ResponseFormat.markdown⟩ ∧
    calculate_hash_wrapper []
        ⟨HashAlgorithm.md5, InputType.hex, "abc", NormalizationType.none,
          ResponseFormat.markdown⟩ =
      "Error: " ++ fromhexMsg "abc".data.length := by
  refine ⟨⟨by decide, by decide, by decide⟩, ?_⟩
  exact hex_validation_does_not_guarantee_digest [] HashAlgorithm.md5
    NormalizationType.none ResponseFormat.markdown "abc" (by decide) (by decide) (by decide)

/-- C2: for every validly constructed input, the wrappers always return a
string — the formatted result on success, and on any failure the error
converted to a string prefixed with `"Error: "`; no exception propagates. -/
theorem wrappers_error_policy (fs : FileSystem)
    (alg : HashAlgorithm) (ity : InputType) (raw : String)
    (norm : NormalizationType) (rf : ResponseFormat) (p : HashCalculationInput)
    (hp : mkHashCalculationInput fs alg ity raw norm rf = .ok p)
    (alg2 : HashAlgorithm) (ity2 : InputType) (raw2 exp2 : String)
    (norm2 : NormalizationType) (rf2 : ResponseFormat) (q : HashComparisonInput)
    (hq : mkHashComparisonInput alg2 ity2 raw2 exp2 norm2 rf2 = .ok q) :
    ((∃ e, calculate_hash_core fs p = .error e ∧
        calculate_hash_wrapper fs p = "Error: " ++ e) ∨
     (∃ h d, calculate_hash_core fs p = .ok (h, d) ∧
        calculate_hash_wrapper fs p =
          (if p.response_format = ResponseFormat.markdown then
            _format_result_markdown ("Hash Calculation: " ++ p.algorithm.value)
              (PyVal.vstr h) d
           else
            _format_result_json ("Hash Calculation: " ++ p.algorithm.value)
              (PyVal.vstr h) d))) ∧
    ((∃ e, compare_hash_core fs q = .error e ∧
        compare_hash_wrapper fs q = "Error: " ++ e) ∨
     (∃ m c d, compare_hash_core fs q = .ok (m, c, d) ∧
        compare_hash_wrapper fs q =
          (if q.response_format = ResponseFormat.markdown then
            _format_result_markdown
              ("Hash Comparison: " ++ q.algorithm.value ++
                (if m then " ✓ MATCH" else " ✗ MISMATCH"))
              (PyVal.vdict (compareResult m c q.expected_hash)) d
           else
            _format_result_json ("Hash Comparison: " ++ q.algorithm.value)
              (PyVal.vdict (compareResult m c q.expected_hash)) d))) := by
  constructor
  · cases hcore : calculate_hash_core fs p with
    | error e => exact .inl ⟨e, rfl, by simp only [calculate_hash_wrapper, hcore]⟩
    | ok r =>
      exact .inr ⟨r.1, r.2, by simp [hcore], by simp only [calculate_hash_wrapper, hcore]⟩
  · cases hcore : compare_hash_core fs q with
    | error e => exact .inl ⟨e, rfl, by simp only [compare_hash_wrapper, hcore]⟩
    | ok r =>
      exact .inr ⟨r.1, r.2.1, r.2.2, by simp [hcore],
        by simp only [compare_hash_wrapper, hcore]⟩

set_option maxRecDepth 1000000 in
/-- Witness for C2 at concrete calculation and comparison inputs. -/
theorem wrappers_error_policy_witness :
    mkHashCalculationInput [] HashAlgorithm.crc32 InputType.text "hi"
        NormalizationType.none ResponseFormat.markdown =
      .ok ⟨HashAlgorithm.crc32, InputType.text, "hi", NormalizationType.none,
        ResponseFormat.markdown⟩ ∧
    mkHashComparisonInput HashAlgorithm.crc32 InputType.text "hi" "0f"
        NormalizationType.none ResponseFormat.markdown =
      .ok ⟨HashAlgorithm.crc32, InputType.text, "hi", "0f",
        NormalizationType.none, ResponseFormat.markdown⟩ ∧
    ((∃ e, calculate_hash_core []
          ⟨HashAlgorithm.crc32, InputType.text, "hi", NormalizationType.none,
            ResponseFormat.markdown⟩ = .error e ∧
        calculate_hash_wrapper []
          ⟨HashAlgorithm.crc32, InputType.text, "hi", NormalizationType.none,
            ResponseFormat.markdown⟩ = "Error: " ++ e) ∨
     (∃ h d, calculate_hash_core []
          ⟨HashAlgorithm.crc32, InputType.text, "hi", NormalizationType.none,
            ResponseFormat.markdown⟩ = .ok (h, d))) := by
  refine ⟨rfl, rfl, ?_⟩
  rcases (wrappers_error_policy [] HashAlgorithm.crc32 InputType.text "hi"
      NormalizationType.none ResponseFormat.markdown
      ⟨HashAlgorithm.crc32, InputType.text, "hi", NormalizationType.none,
        ResponseFormat.markdown⟩ rfl
      HashAlgorithm.crc32 InputType.text "hi" "0f"
      NormalizationType.none ResponseFormat.markdown
      ⟨HashAlgorithm.crc32, InputType.text, "hi", "0f", NormalizationType.none,
        ResponseFormat.markdown⟩ rfl).1 with ⟨e, he, hw⟩ | ⟨h, d, hc, -⟩
  · exact .inl ⟨e, he, hw⟩
  · exact .inr ⟨h, d, hc⟩

/-- The flattened hex characters of a byte list: two per byte. -/
theorem hexChars_length : ∀ bs : List Nat, ((bs.map byteToHexChars).flatten).length = 2 * bs.length
  | [] => rfl
  | b :: bs => by
    simp only [List.map_cons, List.flatten_cons, List.length_append,
      hexChars_length bs, byteToHexChars, List.length_cons, List.length_nil]
    omega

/-- `bytesToHex` yields two characters per byte. -/
theorem bytesToHex_length (bs : List Nat) : (bytesToHex bs).data.length = 2 * bs.length :=
  hexChars_length bs

/-- A `hexDigit` of a value `< 16` is a lowercase hex character. -/
theorem hexDigit_lower (n : Nat) (h : n < 16) : isLowerHexChar (hexDigit n) = true := by
  interval_cases n <;> decide

/-- Every character of `bytesToHex` is a lowercase hex character. -/
theorem bytesToHex_chars (bs : List Nat) :
    ∀ c ∈ (bytesToHex bs).data, isLowerHexChar c = true := by
  intro c hc
  simp only [bytesToHex, List.mem_flatten, List.mem_map] at hc
  obtain ⟨cs, ⟨b, _, hcs⟩, hcmem⟩ := hc
  subst hcs
  simp only [byteToHexChars, List.mem_cons, List.not_mem_nil, or_false] at hcmem
  rcases hcmem with h | h <;> subst h
  · exact hexDigit_lower _ (Nat.mod_lt _ (by omega))
  · exact hexDigit_lower _ (Nat.mod_lt _ (by omega))

/-- Hex rendering of `n` uses at most `k` digits when `n < 16 ^ k`. -/
theorem natHexAux_length_le : ∀ (fuel n k : Nat), n < 16 ^ k → k ≤ fuel →
    (natHexAux fuel n).length ≤ k := by
  intro fuel
  induction fuel with
  | zero => intro n k _ _; simp [natHexAux]
  | succ f ih =>
    intro n k hn hk
    unfold natHexAux
    split
    · simp
    · match k with
      | 0 => simp at hn; omega
      | k + 1 =>
        simp only [List.length_append, List.length_cons, List.length_nil]
        have hdiv : n / 16 < 16 ^ k := by
          rw [Nat.div_lt_iff_lt_mul (by norm_num)]
          calc n < 16 ^ (k + 1) := hn
          _ = 16 ^ k * 16 := by ring
        have := ih (n / 16) k hdiv (by omega)
        omega

/-- Characters of the hex rendering are lowercase hex characters. -/
theorem natHexAux_chars : ∀ (fuel n : Nat), ∀ c ∈ natHexAux fuel n,
    isLowerHexChar c = true := by
  intro fuel
  induction fuel with
  | zero => intro n c hc; simp [natHexAux] at hc
  | succ f ih =>
    intro n c hc
    unfold natHexAux at hc
    split at hc
    · simp at hc
    · simp only [List.mem_append, List.mem_cons, List.not_mem_nil, or_false] at hc
      rcases hc with h | h
      · exact ih _ c h
      · subst h
        exact hexDigit_lower _ (Nat.mod_lt _ (by omega))

/-- `hexPad w n` has exactly `w` characters when `n < 16 ^ w ≤ 16 ^ 16`. -/
theorem hexPad_length (w n : Nat) (hn : n < 16 ^ w) (hw : w ≤ 16) :
    (hexPad w n).data.length = w := by
  have := natHexAux_length_le 16 n w hn (by omega)
  simp only [hexPad, List.length_append, List.length_replicate]
  omega

/-- Every character of `hexPad` is a lowercase hex character. -/
theorem hexPad_chars (w n : Nat) : ∀ c ∈ (hexPad w n).data, isLowerHexChar c = true := by
  intro c hc
  simp only [hexPad, List.mem_append, List.mem_replicate] at hc
  rcases hc with ⟨-, h⟩ | h
  · subst h; decide
  · exact natHexAux_chars 16 n c h

/-- MD5 digests have 16 bytes. -/
theorem md5Bytes_length (data : List Nat) : (md5Bytes data).length = 16 := by
  simp [md5Bytes, u32le]

/-- SHA-1 digests have 20 bytes. -/
theorem sha1Bytes_length (data : List Nat) : (sha1Bytes data).length = 20 := by
  simp [sha1Bytes, u32be]

/-- Big-endian word serialization length. -/
theorem beBytes_length (n w : Nat) : (beBytes n w).length = n := by
  simp [beBytes]

/-- SHA-256 digests have 32 bytes. -/
theorem sha256Bytes_length (data : List Nat) : (sha256Bytes data).length = 32 := by
  simp [sha256Bytes, sha2Bytes, beBytes_length, sha256P]

/-- SHA-512 digests have 64 bytes. -/
theorem sha512Bytes_length (data : List Nat) : (sha512Bytes data).length = 64 := by
  simp [sha512Bytes, sha2Bytes, beBytes_length, sha512P]

/-- A Keccak round keeps the 25-lane state shape. -/
theorem keccakRound_length (s : List Nat) (rc : Nat) : (keccakRound s rc).length = 25 := by
  simp [keccakRound]

/-- The Keccak permutation keeps the 25-lane state shape. -/
theorem keccakF_length (s : List Nat) (h : s.length = 25) : (keccakF s).length = 25 := by
  rw [keccakF]
  generalize keccakRC = l
  induction l generalizing s with
  | nil => simpa using h
  | cons rc rest ih => exact ih _ (keccakRound_length s rc)

/-- Absorbing keeps the 25-lane state shape. -/
theorem keccakAbsorb_length (s block : List Nat) (h : s.length = 25) :
    (keccakAbsorb s block).length = 25 := by
  rw [keccakAbsorb]
  apply keccakF_length
  simp [List.length_zipWith, h]

/-- SHA-3 digests have `outLen` bytes whenever `outLen ≤ 200`. -/
theorem sha3Bytes_length (rate outLen : Nat) (data : List Nat) (h : outLen ≤ 200) :
    (sha3Bytes rate outLen data).length = outLen := by
  rw [sha3Bytes]
  have hst : ∀ (blocks : List (List Nat)) (s : List Nat), s.length = 25 →
      (blocks.foldl keccakAbsorb s).length = 25 := by
    intro blocks
    induction blocks with
    | nil => intro s hs; simpa using hs
    | cons b rest ih => intro s hs; exact ih _ (keccakAbsorb_length s b hs)
  have h25 := hst (chunksOf rate (sha3Pad rate data)) (List.replicate 25 0) (by simp)
  have hflat : ∀ s : List Nat, ((s.map u64le).flatten).length = 8 * s.length := by
    intro s
    induction s with
    | nil => rfl
    | cons x xs ih => simp [u64le, u32le] at *; omega
  rw [List.length_take, hflat, h25]
  omega

/-- BLAKE2b compression yields an 8-word state. -/
theorem b2bCompress_length (h block : List Nat) (t : Nat) (last : Bool) :
    (b2bCompress h block t last).length = 8 := by
  simp [b2bCompress]

/-- The BLAKE2b block fold keeps the 8-word state shape. -/
theorem b2bFold_length : ∀ (blocks : List (List Nat)) (h : List Nat) (t0 : Nat),
    h.length = 8 → (b2bFold h t0 blocks).length = 8 := by
  intro blocks
  induction blocks with
  | nil => intro h t0 hh; simpa [b2bFold] using hh
  | cons b rest ih =>
    intro h t0 hh
    match rest with
    | [] => exact b2bCompress_length _ _ _ _
    | b2 :: rest2 => exact ih _ _ (b2bCompress_length _ _ _ _)

/-- BLAKE2b digests have 64 bytes. -/
theorem blake2bBytes_length (data : List Nat) : (blake2bBytes data).length = 64 := by
  rw [blake2bBytes]
  have h8 : (b2bFold (b2bIV.set 0 (b2bIV.getD 0 0 ^^^ 0x01010040)) 0
      (if data.length = 0 then [[]] else chunksOf 128 data)).length = 8 :=
    b2bFold_length _ _ _ (by simp [b2bIV])
  have hflat : ∀ s : List Nat, ((s.map u64le).flatten).length = 8 * s.length := by
    intro s
    induction s with
    | nil => rfl
    | cons x xs ih => simp [u64le, u32le] at *; omega
  rw [hflat, h8]

/-- C6: `calculate_hash` with crc32 renders the CRC-32 value reduced modulo
`2 ^ 32` as exactly 8 zero-padded lowercase hex characters, and every other
algorithm renders its digest as lowercase hex of the fixed length determined
by the algorithm. -/
theorem calculate_hash_digest_format (data : List Nat) :
    calculate_hash data HashAlgorithm.crc32 = hexPad 8 (crc32 data % 2 ^ 32) ∧
    (∀ alg : HashAlgorithm, (calculate_hash data alg).data.length = hexLen alg ∧
      ∀ c ∈ (calculate_hash data alg).data, isLowerHexChar c = true) := by
  have hmask : crc32 data &&& 0xffffffff = crc32 data % 2 ^ 32 := by
    have h : (0xffffffff : Nat) = 2 ^ 32 - 1 := by norm_num
    rw [h, Nat.and_pow_two_sub_one_eq_mod]
  constructor
  · rw [calculate_hash, hmask]
  · intro alg
    cases alg with
    | md5 =>
      exact ⟨by rw [calculate_hash, bytesToHex_length, md5Bytes_length]; rfl,
        bytesToHex_chars _⟩
    | sha1 =>
      exact ⟨by rw [calculate_hash, bytesToHex_length, sha1Bytes_length]; rfl,
        bytesToHex_chars _⟩
    | sha256 =>
      exact ⟨by rw [calculate_hash, bytesToHex_length, sha256Bytes_length]; rfl,
        bytesToHex_chars _⟩
    | sha512 =>
      exact ⟨by rw [calculate_hash, bytesToHex_length, sha512Bytes_length]; rfl,
        bytesToHex_chars _⟩
    | sha3_256 =>
      exact ⟨by rw [calculate_hash, bytesToHex_length, sha3_256Bytes,
        sha3Bytes_length 136 32 data (by omega)]; rfl, bytesToHex_chars _⟩
    | sha3_512 =>
      exact ⟨by rw [calculate_hash, bytesToHex_length, sha3_512Bytes,
        sha3Bytes_length 72 64 data (by omega)]; rfl, bytesToHex_chars _⟩
    | blake2b =>
      exact ⟨by rw [calculate_hash, bytesToHex_length, blake2bBytes_length]; rfl,
        bytesToHex_chars _⟩
    | crc32 =>
      refine ⟨?_, ?_⟩
      · rw [calculate_hash]
        exact hexPad_length 8 _ (by
          have := Nat.and_le_right (n := crc32 data) (m := 0xffffffff)
          norm_num at this ⊢
          omega) (by omega)
      · rw [calculate_hash]
        exact hexPad_chars 8 _

/-! ## Case-insensitive comparison lemmas (for C5) -/

/-- Every character of a rendered digest is a lowercase hex character. -/
theorem calculate_hash_chars (data : List Nat) (alg : HashAlgorithm) :
    ∀ c ∈ (calculate_hash data alg).data, isLowerHexChar c = true := by
  cases alg <;>
    first
      | exact fun c hc => bytesToHex_chars _ c hc
      | exact fun c hc => hexPad_chars 8 _ c hc

/-- `Char.toLower` fixes lowercase hex characters. -/
theorem toLower_eq_self_of_lower_hex (c : Char) (h : isLowerHexChar c = true) :
    c.toLower = c := by
  simp only [isLowerHexChar, Bool.or_eq_true, Bool.and_eq_true, decide_eq_true_eq] at h
  have hn : ¬ (65 ≤ c.toNat ∧ c.toNat ≤ 90) := by
    rcases h with ⟨h1, h2⟩ | ⟨h1, h2⟩
    · have a2 : c.toNat ≤ 57 := h2
      omega
    · have a1 : 97 ≤ c.toNat := h1
      omega
  unfold Char.toLower
  rw [if_neg hn]

/-- `str.lower()` fixes strings of lowercase hex characters. -/
theorem pyLower_eq_self (s : String) (h : s.data.all isLowerHexChar = true) :
    pyLower s = s := by
  rw [pyLower]
  have hmap : s.data.map Char.toLower = s.data := by
    conv_rhs => rw [← List.map_id s.data]
    exact List.map_congr_left
      (fun c hc => toLower_eq_self_of_lower_hex c (List.all_eq_true.mp h c hc))
  rw [hmap]

/-- `dropWhile` keeps the last element (or empties the list). -/
theorem getLast_dropWhile (p : Char → Bool) :
    ∀ l : List Char, List.dropWhile p l = [] ∨
      (List.dropWhile p l).getLast? = l.getLast? := by
  intro l
  induction l with
  | nil => exact .inl rfl
  | cons x rest ih =>
    rw [List.dropWhile_cons]
    split
    · match rest, ih with
      | [], _ => exact .inl rfl
      | r :: rs, .inl h => exact .inl h
      | r :: rs, .inr h => exact .inr (by rw [h, List.getLast?_cons_cons])
    · exact .inr rfl

/-- The first character of a stripped string is not whitespace. -/
theorem strip_head_not_ws (l : List Char) (c : Char)
    (h : (pyStripList l).head? = some c) : isPyWhitespace c = false := by
  unfold pyStripList at h
  rw [List.head?_reverse] at h
  rcases getLast_dropWhile isPyWhitespace (List.dropWhile isPyWhitespace l).reverse with
    he | hlast
  · rw [he] at h
    simp at h
  · rw [hlast, List.getLast?_reverse] at h
    have := List.head?_dropWhile_not isPyWhitespace l
    rw [h] at this
    exact this

/-- The last character of a stripped string is not whitespace. -/
theorem strip_last_not_ws (l : List Char) (c : Char)
    (h : (pyStripList l).getLast? = some c) : isPyWhitespace c = false := by
  unfold pyStripList at h
  rw [List.getLast?_reverse] at h
  have := List.head?_dropWhile_not isPyWhitespace (List.dropWhile isPyWhitespace l).reverse
  rw [h] at this
  exact this

/-- Python `str.strip()` is idempotent. -/
theorem pyStripList_idem (l : List Char) : pyStripList (pyStripList l) = pyStripList l := by
  have h1 : List.dropWhile isPyWhitespace (pyStripList l) = pyStripList l := by
    rw [List.dropWhile_eq_self_iff]
    intro hl
    have hh : (pyStripList l).head? = some ((pyStripList l)[0]) := by
      rw [List.head?_eq_getElem?, List.getElem?_eq_getElem hl]
    simpa using strip_head_not_ws l _ hh
  have h2 : List.dropWhile isPyWhitespace (pyStripList l).reverse = (pyStripList l).reverse := by
    rw [List.dropWhile_eq_self_iff]
    intro hl
    have hh : (pyStripList l).getLast? = some ((pyStripList l).reverse[0]) := by
      rw [← List.head?_reverse, List.head?_eq_getElem?, List.getElem?_eq_getElem hl]
    simpa using strip_last_not_ws l _ hh
  show ((List.dropWhile isPyWhitespace (pyStripList l)).reverse.dropWhile
    isPyWhitespace).reverse = pyStripList l
  rw [h1, h2, List.reverse_reverse]

/-- Python `str.strip()` is idempotent (string form). -/
theorem pyStrip_idem (s : String) : pyStrip (pyStrip s) = pyStrip s := by
  show String.mk (pyStripList (pyStripList s.data)) = String.mk (pyStripList s.data)
  rw [pyStripList_idem]

/-- C5: `compare_hash_wrapper` reports `match = true` exactly when the
computed digest equals the caller-supplied expected hash ignoring
hexadecimal letter case — the expected hash is stripped and lower-cased at
validation, the comparison lower-cases both sides, and the result record
includes both values. -/
theorem compare_hash_match_iff (fs : FileSystem) (alg : HashAlgorithm)
    (ity : InputType) (raw rawExp : String) (norm : NormalizationType)
    (rf : ResponseFormat) (q : HashComparisonInput)
    (hq : mkHashComparisonInput alg ity raw rawExp norm rf = .ok q)
    (m : Bool) (c : String) (d : List (String × PyVal))
    (hcore : compare_hash_core fs q = .ok (m, c, d)) :
    q.expected_hash = pyLower (pyStrip rawExp) ∧
    (m = true ↔ pyLower c = pyLower (pyStrip rawExp)) ∧
    (m = true ↔ c = q.expected_hash) ∧
    compareResult m c q.expected_hash =
      [("match", PyVal.vbool m), ("calculated_hash", PyVal.vstr c),
       ("expected_hash", PyVal.vstr q.expected_hash)] := by
  rw [mkHashComparisonInput, validate_expected_hash] at hq
  rw [pyStrip_idem] at hq
  by_cases hcond : (pyLower (pyStrip rawExp)).data ≠ [] ∧
      (pyLower (pyStrip rawExp)).data.all isLowerHexChar
  · rw [if_pos hcond] at hq
    simp only [Except.map, Except.ok.injEq] at hq
    have hexp : q.expected_hash = pyLower (pyStrip rawExp) :=
      (congrArg HashComparisonInput.expected_hash hq).symm
    have hall : q.expected_hash.data.all isLowerHexChar = true := by
      rw [hexp]
      exact hcond.2
    have hlowexp : pyLower q.expected_hash = q.expected_hash :=
      pyLower_eq_self _ hall
    rcases hdata : get_input_data fs q.input_type q.input_data with e | data
    · rw [compare_hash_core, hdata] at hcore
      simp only [bind, Except.bind] at hcore
      simp at hcore
    rcases hnd : normalize_data data q.normalization with e | nd
    · rw [compare_hash_core, hdata] at hcore
      simp only [bind, Except.bind] at hcore
      rw [hnd] at hcore
      simp only [bind, Except.bind] at hcore
      simp at hcore
    rw [compare_hash_core, hdata] at hcore
    simp only [bind, Except.bind] at hcore
    rw [hnd] at hcore
    simp only [bind, Except.bind, pure, Except.pure, Except.ok.injEq,
      Prod.mk.injEq] at hcore
    obtain ⟨hm, hc, -⟩ := hcore
    have hlowc : pyLower (calculate_hash nd q.algorithm) = calculate_hash nd q.algorithm :=
      pyLower_eq_self _ (List.all_eq_true.mpr (calculate_hash_chars nd q.algorithm))
    subst hm
    subst hc
    refine ⟨hexp, ?_, ?_, rfl⟩
    · rw [hlowexp, hexp]
      exact beq_iff_eq
    · rw [hlowexp, hlowc]
      exact beq_iff_eq
  · rw [if_neg hcond] at hq
    exact absurd hq (by simp [Except.map])

set_option maxRecDepth 1000000 in
/-- Witness for C5 at a concrete comparison (uppercase expected hash). -/
theorem compare_hash_match_iff_witness :
    (⟨HashAlgorithm.crc32, InputType.text, "Hello, World!", "ec4ac3d0",
        NormalizationType.none, ResponseFormat.markdown⟩ :
      HashComparisonInput).expected_hash = pyLower (pyStrip "EC4AC3D0") := by
  exact (compare_hash_match_iff [] HashAlgorithm.crc32 InputType.text
    "Hello, World!" "EC4AC3D0" NormalizationType.none ResponseFormat.markdown
    ⟨HashAlgorithm.crc32, InputType.text, "Hello, World!", "ec4ac3d0",
      NormalizationType.none, ResponseFormat.markdown⟩ rfl
    true "ec4ac3d0" _ rfl).1

/-! ## JSON canonicalization lemmas (for C4) -/

/-- Inserting commutes with a key-preserving transformation of the values. -/
theorem insertByKey_map {α β : Type} (h : (String × α) → β) (e : String × α) :
    ∀ l : List (String × α),
      insertByKey (e.1, h e) (l.map (fun f => (f.1, h f))) =
        (insertByKey e l).map (fun f => (f.1, h f)) := by
  intro l
  induction l with
  | nil => rfl
  | cons f fs ih =>
    simp only [List.map_cons, insertByKey]
    split
    · rfl
    · simp only [List.map_cons, ih]

/-- Sorting by key commutes with a key-preserving transformation of the
values. -/
theorem sortByKey_map {α β : Type} (h : (String × α) → β) :
    ∀ l : List (String × α),
      sortByKey (l.map (fun f => (f.1, h f))) =
        (sortByKey l).map (fun f => (f.1, h f)) := by
  intro l
  induction l with
  | nil => rfl
  | cons f fs ih =>
    simp only [List.map_cons, sortByKey, ih]
    exact insertByKey_map h f (sortByKey fs)

/-- Members of an insertion come from the inserted element or the list. -/
theorem mem_insertByKey {α : Type} (a e : String × α) :
    ∀ l : List (String × α), a ∈ insertByKey e l → a = e ∨ a ∈ l := by
  intro l
  induction l with
  | nil =>
    intro h
    rw [insertByKey] at h
    simp at h ⊢
    exact h
  | cons f fs ih =>
    intro h
    rw [insertByKey] at h
    split at h
    · simpa using h
    · simp only [List.mem_cons] at h
      rcases h with h | h
      · exact .inr (by simp [h])
      · rcases ih h with h2 | h2
        · exact .inl h2
        · exact .inr (by simp [h2])

/-- Members of the key-sorted list are members of the original. -/
theorem mem_sortByKey {α : Type} (a : String × α) :
    ∀ l : List (String × α), a ∈ sortByKey l → a ∈ l := by
  intro l
  induction l with
  | nil =>
    intro h
    rw [sortByKey] at h
    simp at h
  | cons f fs ih =>
    intro h
    rw [sortByKey] at h
    rcases mem_insertByKey a f (sortByKey fs) h with h2 | h2
    · simp [h2]
    · simp [ih h2]

/-- Every `JValue` has positive size. -/
theorem jvalue_sizeOf_pos (v : JValue) : 1 ≤ sizeOf v := by
  cases v <;> simp

/-- Serializing with sorted keys is the same as key-sorting recursively and
then serializing without sorting, for any sufficient fuel. -/
theorem dumps_eq_plain_canonF : ∀ (f : Nat) (v : JValue), sizeOf v ≤ f →
    dumps v = dumpsPlain (canonF f v) := by
  intro f
  induction f using Nat.strong_induction_on with
  | _ f ih =>
    intro v hv
    match f, v with
    | 0, v =>
      have := jvalue_sizeOf_pos v
      omega
    | f + 1, .jnull => simp [dumps, dumpsPlain, canonF]
    | f + 1, .jbool b => cases b <;> simp [dumps, dumpsPlain, canonF]
    | f + 1, .jint k => simp [dumps, dumpsPlain, canonF]
    | f + 1, .jnum raw => simp [dumps, dumpsPlain, canonF]
    | f + 1, .jstr s => simp [dumps, dumpsPlain, canonF]
    | f + 1, .jarr items =>
      have hsz : ∀ x ∈ items, sizeOf x ≤ f := by
        intro x hx
        have h1 := List.sizeOf_lt_of_mem hx
        have h2 : sizeOf (JValue.jarr items) = 1 + sizeOf items := by
          simp
        omega
      show dumps (JValue.jarr items) = dumpsPlain (JValue.jarr (items.map (canonF f)))
      simp only [dumps, dumpsPlain, List.attach_map_val]
      rw [List.map_map]
      have hmaps : items.map dumps = items.map (dumpsPlain ∘ canonF f) :=
        List.map_congr_left (fun x hx => by
          simp only [Function.comp]
          exact ih f (Nat.lt_succ_self f) x (hsz x hx))
      rw [hmaps]
    | f + 1, .jobj es =>
      have hsz : ∀ x ∈ es, sizeOf x.2 ≤ f := by
        intro x hx
        have h1 := List.sizeOf_lt_of_mem hx
        have h2 : sizeOf (JValue.jobj es) = 1 + sizeOf es := by
          simp
        have h3 : sizeOf x.2 < sizeOf x := by
          obtain ⟨k, w⟩ := x
          simp only [Prod.mk.sizeOf_spec]
          omega
        omega
      show dumps (JValue.jobj es) =
        dumpsPlain (JValue.jobj (sortByKey (es.map (fun e => (e.1, canonF f e.2)))))
      simp only [dumps, dumpsPlain]
      rw [List.attach_map_val es (fun x => (x.1, jstrRender x.1 ++ ":" ++ dumps x.2)),
        List.attach_map_val (sortByKey (es.map (fun e => (e.1, canonF f e.2))))
          (fun x => jstrRender x.1 ++ ":" ++ dumpsPlain x.2)]
      rw [sortByKey_map (fun x => jstrRender x.1 ++ ":" ++ dumps x.2) es,
        sortByKey_map (fun x => canonF f x.2) es, List.map_map, List.map_map]
      congr 2
      congr 1
      refine List.map_congr_left (fun x hx => ?_)
      have hmem := mem_sortByKey x es hx
      simp only [Function.comp]
      rw [ih f (Nat.lt_succ_self f) x.2 (hsz x hmem)]

/-- C4: two JSON texts that parse to the same value up to object key order
normalize to identical bytes, so every algorithm yields identical digests on
them; and `normalize_json` fails exactly on input that does not parse. -/
theorem normalize_json_key_order_invariant (t1 t2 : String) (v1 v2 : JValue)
    (f : Nat) (hf1 : sizeOf v1 ≤ f) (hf2 : sizeOf v2 ≤ f)
    (h1 : json_loads t1 = some v1) (h2 : json_loads t2 = some v2)
    (hcanon : canonEq f v1 v2) :
    normalize_json t1 = .ok (utf8Encode (dumps v1)) ∧
    normalize_json t1 = normalize_json t2 ∧
    (∀ alg : HashAlgorithm, calculate_hash (utf8Encode (dumps v1)) alg =
      calculate_hash (utf8Encode (dumps v2)) alg) ∧
    (∀ t : String, json_loads t = none → ∃ e, normalize_json t = .error e) := by
  have hd : dumps v1 = dumps v2 := by
    rw [dumps_eq_plain_canonF f v1 hf1, dumps_eq_plain_canonF f v2 hf2, hcanon]
  refine ⟨?_, ?_, ?_, ?_⟩
  · rw [normalize_json, h1]
  · rw [normalize_json, normalize_json, h1, h2]
    show Except.ok (utf8Encode (dumps v1)) = Except.ok (utf8Encode (dumps v2))
    rw [hd]
  · intro alg
    rw [hd]
  · intro t ht
    rw [normalize_json, ht]
    exact ⟨_, rfl⟩

/-- Witness for C4 on the two key-ordered spellings from the spec. -/
theorem normalize_json_key_order_invariant_witness :
    json_loads "\x7b\"a\":1,\"b\":2\x7d" = some (JValue.jobj [("a", .jint 1), ("b", .jint 2)]) ∧
    json_loads "\x7b\"b\":2,\"a\":1\x7d" = some (JValue.jobj [("b", .jint 2), ("a", .jint 1)]) ∧
    canonEq 1000000 (JValue.jobj [("a", .jint 1), ("b", .jint 2)])
      (JValue.jobj [("b", .jint 2), ("a", .jint 1)]) ∧
    normalize_json "\x7b\"a\":1,\"b\":2\x7d" = normalize_json "\x7b\"b\":2,\"a\":1\x7d" ∧
    json_loads "not json" = none ∧
    (∃ e, normalize_json "not json" = .error e) := by
  have h1 : json_loads "\x7b\"a\":1,\"b\":2\x7d" =
      some (JValue.jobj [("a", .jint 1), ("b", .jint 2)]) := rfl
  have h2 : json_loads "\x7b\"b\":2,\"a\":1\x7d" =
      some (JValue.jobj [("b", .jint 2), ("a", .jint 1)]) := rfl
  have hc : canonEq 1000000 (JValue.jobj [("a", .jint 1), ("b", .jint 2)])
      (JValue.jobj [("b", .jint 2), ("a", .jint 1)]) := rfl
  obtain ⟨-, heq, -, hfail⟩ := normalize_json_key_order_invariant _ _ _ _ 1000000
    (by decide) (by decide) h1 h2 hc
  exact ⟨h1, h2, hc, heq, rfl, hfail "not json" rfl⟩

/-! ## Text normalization lemmas (for C3) -/

/-- The line-ending substitution leaves no carriage return. -/
theorem subEOL_no_cr : ∀ l : List Char, ('\r') ∉ subEOL l := by
  intro l
  induction l using subEOL.induct with
  | case1 => simp [subEOL]
  | case2 c =>
    simp only [subEOL]
    split
    · decide
    · rename_i hc
      simp only [List.mem_singleton]
      intro hcr
      exact hc (by simp [← hcr])
  | case3 c1 c2 rest h ih =>
    simp only [subEOL, h]
    simpa using ih
  | case4 c1 c2 rest h ih =>
    simp only [subEOL, h]
    rw [if_neg Bool.false_ne_true]
    simp only [List.mem_cons, not_or]
    refine ⟨?_, ih⟩
    split
    · decide
    · rename_i hc1
      intro hcr
      exact hc1 (by simp [← hcr])

/-- The line-ending substitution is the identity without carriage returns. -/
theorem subEOL_id_of_no_cr : ∀ l : List Char, ('\r') ∉ l → subEOL l = l := by
  intro l
  induction l using subEOL.induct with
  | case1 => intro _; rfl
  | case2 c =>
    intro hm
    simp only [List.mem_singleton] at hm
    simp only [subEOL]
    rw [if_neg (fun hc => hm (beq_iff_eq.mp hc).symm)]
  | case3 c1 c2 rest h ih =>
    intro hm
    simp only [Bool.and_eq_true, beq_iff_eq] at h
    exact absurd (by simp [h.1]) (hm ·)
  | case4 c1 c2 rest h ih =>
    intro hm
    simp only [List.mem_cons, not_or] at hm
    simp only [subEOL, h]
    rw [if_neg (fun hc => hm.1 (beq_iff_eq.mp hc).symm)]
    rw [ih (by simp only [List.mem_cons, not_or]; exact ⟨hm.2.1, hm.2.2⟩)]
    rfl

/-- A `\r\n` pair is replaced by a single `\n`. -/
theorem subEOL_crlf (l : List Char) : subEOL ('\r' :: '\n' :: l) = '\n' :: subEOL l := by
  simp [subEOL]

/-- A lone `\r` (not followed by `\n`) is replaced by `\n`. -/
theorem subEOL_cr (l : List Char) (h : l.head? ≠ some '\n') :
    subEOL ('\r' :: l) = '\n' :: subEOL l := by
  match l with
  | [] => simp [subEOL]
  | a :: as =>
    simp only [List.head?_cons, ne_eq, Option.some.injEq] at h
    simp only [subEOL]
    rw [if_neg (by simp [h])]
    simp

/-- A character other than `\r` passes through the substitution. -/
theorem subEOL_other (c : Char) (l : List Char) (h : c ≠ '\r') :
    subEOL (c :: l) = c :: subEOL l := by
  match l with
  | [] =>
    simp only [subEOL]
    rw [if_neg (by simpa using h)]
  | a :: as =>
    simp only [subEOL]
    rw [if_neg (by simp [h]), if_neg (by simpa using h)]

/-- Expanding a worker run-length encoding recovers the pending run and the
remaining input. -/
theorem unrle_rleGo : ∀ (xs : List Char) (d : Char) (n : Nat),
    unrle (rleGo d n xs) = List.replicate n d ++ xs := by
  intro xs
  induction xs with
  | nil => intro d n; simp [rleGo, unrle]
  | cons x rest ih =>
    intro d n
    rw [rleGo]
    split
    · rename_i hx
      simp only [beq_iff_eq] at hx
      rw [ih d (n + 1), hx]
      simp [List.replicate_succ', List.append_assoc]
    · rename_i hx
      simp only [beq_iff_eq] at hx
      simp only [unrle, List.map_cons, List.flatten_cons]
      have := ih x 1
      simp only [unrle] at this
      rw [this]
      simp

/-- Expanding the run-length encoding recovers the list. -/
theorem unrle_rle : ∀ l : List Char, unrle (rle l) = l := by
  intro l
  match l with
  | [] => rfl
  | x :: xs =>
    rw [rle, unrle_rleGo xs x 1]
    simp

/-- The worker encoding starts with the pending run character. -/
theorem rleGo_head : ∀ (xs : List Char) (d : Char) (n : Nat),
    ∃ m, (rleGo d n xs).head? = some (d, m) := by
  intro xs
  induction xs with
  | nil => intro d n; exact ⟨n, rfl⟩
  | cons x rest ih =>
    intro d n
    rw [rleGo]
    split
    · exact ih d (n + 1)
    · exact ⟨n, rfl⟩

/-- Adjacent runs of the encoding have distinct characters. -/
theorem rleGo_chain : ∀ (xs : List Char) (d : Char) (n : Nat),
    List.Chain' (fun p q : Char × Nat => p.1 ≠ q.1) (rleGo d n xs) := by
  intro xs
  induction xs with
  | nil => intro d n; simp [rleGo]
  | cons x rest ih =>
    intro d n
    rw [rleGo]
    split
    · exact ih d (n + 1)
    · rename_i hx
      simp only [beq_iff_eq] at hx
      refine List.Chain'.cons' (ih x 1) ?_
      intro y hy
      obtain ⟨m, hm⟩ := rleGo_head rest x 1
      rw [hm] at hy
      simp only [Option.mem_def, Option.some.injEq] at hy
      rw [← hy]
      exact fun h => hx h.symm

/-- Adjacent runs of the encoding of a list have distinct characters. -/
theorem rle_chain (l : List Char) :
    List.Chain' (fun p q : Char × Nat => p.1 ≠ q.1) (rle l) := by
  match l with
  | [] => simp [rle]
  | x :: xs => exact rleGo_chain xs x 1

/-- Every run of the worker encoding has positive count. -/
theorem rleGo_pos : ∀ (xs : List Char) (d : Char) (n : Nat), 1 ≤ n →
    ∀ p ∈ rleGo d n xs, 1 ≤ p.2 := by
  intro xs
  induction xs with
  | nil =>
    intro d n hn p hp
    simp only [rleGo, List.mem_singleton] at hp
    simp [hp, hn]
  | cons x rest ih =>
    intro d n hn p hp
    rw [rleGo] at hp
    split at hp
    · exact ih d (n + 1) (by omega) p hp
    · simp only [List.mem_cons] at hp
      rcases hp with hp | hp
      · simp [hp, hn]
      · exact ih x 1 le_rfl p hp

/-- Every run of the encoding has positive count. -/
theorem rle_pos (l : List Char) : ∀ p ∈ rle l, 1 ≤ p.2 := by
  match l with
  | [] => simp [rle]
  | x :: xs => exact rleGo_pos xs x 1 le_rfl

/-- Joint characterization of the collapse worker by run-length encoding:
on the run being read it acts as the clamp of that run, and a pending
foreign run passes through unchanged. -/
theorem collapse_rle_joint (c : Char) (keep minRun : Nat) (hm : 1 ≤ minRun) :
    ∀ xs : List Char,
      (∀ n, 1 ≤ n → collapseRunGo c keep minRun n xs =
        unrle ((rleGo c n xs).map (clampRun c keep minRun))) ∧
      (∀ d n, d ≠ c → 1 ≤ n →
        unrle ((rleGo d n xs).map (clampRun c keep minRun)) =
          List.replicate n d ++ collapseRunGo c keep minRun 0 xs) := by
  intro xs
  induction xs with
  | nil =>
    constructor
    · intro n hn
      simp only [collapseRunGo, rleGo, List.map_cons, List.map_nil, unrle,
        List.flatten_cons, List.flatten_nil, List.append_nil, emitRun, clampRun]
      by_cases h : minRun ≤ n
      · simp [h]
      · simp [h]
    · intro d n hd hn
      simp only [collapseRunGo, rleGo, List.map_cons, List.map_nil, unrle,
        List.flatten_cons, List.flatten_nil, List.append_nil, emitRun, clampRun]
      rw [if_neg (by simp [hd]), if_neg (by omega)]
      simp
  | cons x rest ih =>
    constructor
    · intro n hn
      rw [collapseRunGo, rleGo]
      by_cases hx : x = c
      · rw [if_pos (by simp [hx]), if_pos (by simp [hx])]
        exact ih.1 (n + 1) (by omega)
      · rw [if_neg (by simp [hx]), if_neg (by simp [hx])]
        simp only [List.map_cons, unrle, List.flatten_cons]
        have h2 := ih.2 x 1 hx le_rfl
        simp only [unrle] at h2
        rw [h2]
        by_cases hmn : minRun ≤ n
        · rw [clampRun, if_pos ⟨rfl, hmn⟩, emitRun, if_pos hmn]
          simp
        · rw [clampRun, if_neg (by simp [hmn]), emitRun, if_neg hmn]
          simp
    · intro d n hd hn
      rw [rleGo, collapseRunGo]
      by_cases hx : x = d
      · rw [if_pos (by simp [hx]), if_neg (by simp [hx, hd])]
        have h2 := ih.2 d (n + 1) hd (by omega)
        rw [h2, emitRun, if_neg (by omega)]
        simp only [List.replicate_zero, List.nil_append, hx]
        rw [List.replicate_succ' n d]
        simp [List.append_assoc]
      · rw [if_neg (by simp [hx])]
        simp only [List.map_cons, unrle, List.flatten_cons]
        rw [clampRun, if_neg (by simp [hd])]
        by_cases hxc : x = c
        · rw [if_pos (by simp [hxc])]
          have h1 := (ih.1 1 le_rfl).symm
          simp only [unrle] at h1
          rw [hxc, h1]
        · rw [if_neg (by simp [hxc]), emitRun, if_neg (by omega)]
          have h2 := ih.2 x 1 hxc le_rfl
          simp only [unrle] at h2
          rw [h2]
          simp

/-- The collapse substitution is exactly the run transformation: every
maximal run of `minRun` or more copies of `c` becomes `keep` copies, and
every other maximal run is unchanged. -/
theorem collapseRun_eq_rle (c : Char) (keep minRun : Nat) (hm : 1 ≤ minRun) :
    ∀ l : List Char,
      collapseRun c keep minRun l = unrle ((rle l).map (clampRun c keep minRun)) := by
  intro l
  match l with
  | [] =>
    rw [collapseRun, collapseRunGo, rle, emitRun, if_neg (by omega)]
    rfl
  | x :: xs =>
    rw [collapseRun, collapseRunGo, rle]
    by_cases hx : x = c
    · rw [if_pos (by simp [hx]), hx]
      exact (collapse_rle_joint c keep minRun hm xs).1 1 le_rfl
    · rw [if_neg (by simp [hx]), emitRun, if_neg (by omega)]
      have h2 := (collapse_rle_joint c keep minRun hm xs).2 x 1 hx le_rfl
      rw [h2]
      simp

/-- The leading whitespace, stripped core, and trailing whitespace of a
string: `strip` removes exactly a whitespace prefix and suffix. -/
theorem pyStripList_decomp (l : List Char) :
    ∃ a b, l = a ++ pyStripList l ++ b ∧
      (∀ c ∈ a, isPyWhitespace c = true) ∧ (∀ c ∈ b, isPyWhitespace c = true) := by
  refine ⟨l.takeWhile isPyWhitespace,
    ((l.dropWhile isPyWhitespace).reverse.takeWhile isPyWhitespace).reverse, ?_, ?_, ?_⟩
  · have h1 : l = l.takeWhile isPyWhitespace ++ l.dropWhile isPyWhitespace :=
      (List.takeWhile_append_dropWhile isPyWhitespace l).symm
    have h2 : l.dropWhile isPyWhitespace =
        pyStripList l ++
          ((l.dropWhile isPyWhitespace).reverse.takeWhile isPyWhitespace).reverse := by
      have key : ∀ m : List Char, m.reverse.reverse =
          (m.reverse.dropWhile isPyWhitespace).reverse ++
            (m.reverse.takeWhile isPyWhitespace).reverse := by
        intro m
        rw [← List.reverse_append, List.takeWhile_append_dropWhile]
      have h4 := key (l.dropWhile isPyWhitespace)
      rw [List.reverse_reverse] at h4
      exact h4
    rw [List.append_assoc, ← h2]
    exact h1
  · exact fun c hc => List.mem_takeWhile_imp hc
  · intro c hc
    rw [List.mem_reverse] at hc
    exact List.mem_takeWhile_imp hc

set_option maxRecDepth 1000000 in
/-- C3: `normalize_text` returns the UTF-8 bytes of the input transformed by
trimming surrounding whitespace, normalizing every line-ending variant to
`\n`, collapsing every run of three or more newlines to exactly two, and
collapsing every run of two or more spaces to a single space — where the
collapses are exactly the run transformations on the maximal-run
decomposition, and trimming removes exactly a whitespace prefix and
suffix. -/
theorem normalize_text_spec :
    (∀ s : String, normalize_text s =
      utf8Encode (String.mk (collapseRun ' ' 1 2
        (collapseRun '\n' 2 3 (subEOL (pyStripList s.data)))))) ∧
    (∀ l : List Char, unrle (rle l) = l) ∧
    (∀ l : List Char, List.Chain' (fun p q : Char × Nat => p.1 ≠ q.1) (rle l)) ∧
    (∀ l : List Char, ∀ p ∈ rle l, 1 ≤ p.2) ∧
    (∀ l : List Char,
      collapseRun '\n' 2 3 l = unrle ((rle l).map (clampRun '\n' 2 3))) ∧
    (∀ l : List Char,
      collapseRun ' ' 1 2 l = unrle ((rle l).map (clampRun ' ' 1 2))) ∧
    (∀ l : List Char, ('\r') ∉ subEOL l) ∧
    (∀ l : List Char, ('\r') ∉ l → subEOL l = l) ∧
    (∀ l : List Char, subEOL ('\r' :: '\n' :: l) = '\n' :: subEOL l) ∧
    (∀ l : List Char, l.head? ≠ some '\n' → subEOL ('\r' :: l) = '\n' :: subEOL l) ∧
    (∀ (c : Char) (l : List Char), c ≠ '\r' → subEOL (c :: l) = c :: subEOL l) ∧
    (∀ l : List Char, ∃ a b, l = a ++ pyStripList l ++ b ∧
      (∀ c ∈ a, isPyWhitespace c = true) ∧ (∀ c ∈ b, isPyWhitespace c = true)) ∧
    (∀ (l : List Char) (c : Char),
      (pyStripList l).head? = some c → isPyWhitespace c = false) ∧
    (∀ (l : List Char) (c : Char),
      (pyStripList l).getLast? = some c → isPyWhitespace c = false) :=
  ⟨fun _ => rfl, unrle_rle, rle_chain, rle_pos,
    collapseRun_eq_rle '\n' 2 3 (by omega), collapseRun_eq_rle ' ' 1 2 (by omega),
    subEOL_no_cr, subEOL_id_of_no_cr, subEOL_crlf, subEOL_cr, subEOL_other,
    pyStripList_decomp, strip_head_not_ws, strip_last_not_ws⟩

set_option maxRecDepth 1000000 in
/-- Witness for C3: the conditional parts discharged at concrete inputs,
and the whole pipeline evaluated on a concrete string. -/
theorem normalize_text_spec_witness :
    subEOL ("a\rb".data) = "a\nb".data ∧
    subEOL ('\r' :: "x".data) = '\n' :: subEOL "x".data ∧
    subEOL ('a' :: "y".data) = 'a' :: subEOL "y".data ∧
    (pyStripList " a ".data).head? = some 'a' ∧
    isPyWhitespace 'a' = false ∧
    normalize_text "  a\r\nb\n\n\n\nc  d " =
      utf8Encode (String.mk (collapseRun ' ' 1 2
        (collapseRun '\n' 2 3 (subEOL (pyStripList "  a\r\nb\n\n\n\nc  d ".data))))) := by
  refine ⟨?_, ?_, ?_, by decide, by decide, normalize_text_spec.1 _⟩
  · have h := normalize_text_spec.2.2.2.2.2.2.2.2.2.2.1 'a' ('\r' :: 'b' :: []) (by decide)
    rw [show ("a\rb".data) = 'a' :: '\r' :: 'b' :: [] from rfl, h,
      normalize_text_spec.2.2.2.2.2.2.2.2.2.1 ('b' :: []) (by decide)]
    decide
  · exact normalize_text_spec.2.2.2.2.2.2.2.2.2.1 "x".data (by decide)
  · exact normalize_text_spec.2.2.2.2.2.2.2.2.2.2.1 'a' "y".data (by decide)

end HashCalc
